import Mathlib

/-!
Shallow embedding of the unia provider-agnostic LLM client core
(src/model.rs, src/api/anthropic.rs, src/api/gemini.rs, src/api/openai.rs,
src/agent.rs), followed by theorems settling the frozen claims about it.
-/

namespace Unia

/-- JSON values, embedding `serde_json::Value`. Numbers are restricted to
integers, which covers every value this development manipulates. -/
inductive Json where
  | null
  | bool (b : Bool)
  | num (n : Int)
  | str (s : String)
  | arr (elems : List Json)
  | obj (fields : List (String × Json))

/-- Media kinds from `model.rs` (`MediaType`). -/
inductive MediaType where
  | image
  | document
  | text
  | binary
deriving DecidableEq

/-- Content units from `model.rs` (`Part`). Field order follows the source. -/
inductive Part where
  | text (content : String) (finished : Bool)
  | reasoning (content : String) (summary : Option String)
      (signature : Option String) (finished : Bool)
  | functionCall (id : Option String) (name : String) (arguments : Json)
      (signature : Option String) (finished : Bool)
  | functionResponse (id : Option String) (name : String) (response : Json)
      (parts : List Part) (finished : Bool)
  | media (mediaType : MediaType) (data : String) (mimeType : String)
      (uri : Option String) (finished : Bool)

/-- The `finished` flag of a unit, shared across all five variants. -/
def Part.finished : Part → Bool
  | .text _ f => f
  | .reasoning _ _ _ f => f
  | .functionCall _ _ _ _ f => f
  | .functionResponse _ _ _ _ f => f
  | .media _ _ _ _ f => f

/-- Messages from `model.rs` (`Message`): a role tag over a list of parts. -/
inductive Message where
  | user (parts : List Part)
  | assistant (parts : List Part)

/-- `Message::parts`. -/
def Message.parts : Message → List Part
  | .user ps => ps
  | .assistant ps => ps

/-- Replace the parts of a message, keeping its role (`Message::parts_mut`). -/
def Message.withParts : Message → List Part → Message
  | .user _, ps => .user ps
  | .assistant _, ps => .assistant ps

/-- `FinishReason` from `model.rs`. -/
inductive FinishReason where
  | stop
  | promptTokens
  | outputTokens
  | toolCalls
  | contentFilter
  | error
  | unfinished
deriving DecidableEq

/-- `Usage` from `model.rs`: optional `u32` token counters, modelled as `Nat`
with `u32` arithmetic made explicit in `u32add`. -/
structure Usage where
  prompt_tokens : Option Nat
  completion_tokens : Option Nat
deriving DecidableEq

/-- The `u32` modulus. -/
def u32Mod : Nat := 4294967296

/-- A `Usage` value whose counters are in `u32` range (every value the
Rust type can hold satisfies this). -/
def Usage.wf (u : Usage) : Prop :=
  u.prompt_tokens.getD 0 < u32Mod ∧ u.completion_tokens.getD 0 < u32Mod

/-- `u32` addition (wrapping, as in release-mode Rust). -/
def u32add (a b : Nat) : Nat := (a + b) % u32Mod

/-- One field of the `Usage` merge:
`self.map(|v| v + other.unwrap_or(0)).or(other)`. -/
def optU32Add (x y : Option Nat) : Option Nat :=
  match x with
  | some v => some (u32add v (y.getD 0))
  | none => y

/-- `impl Add for Usage` (model.rs lines 187-202): a present field absorbs the
other side's value (absent counted as 0); an absent field is replaced by the
other side's field. -/
def Usage.add (s o : Usage) : Usage :=
  { prompt_tokens := optU32Add s.prompt_tokens o.prompt_tokens
    completion_tokens := optU32Add s.completion_tokens o.completion_tokens }

/-- `Usage::default()`. -/
def Usage.empty : Usage := { prompt_tokens := none, completion_tokens := none }

/-- `Response` from `model.rs`. -/
structure Response where
  data : List Message
  usage : Usage
  finish : FinishReason

/-- The empty accumulator `Response { data: vec![], usage: default, finish: Unfinished }`
built at the top of the agent loop. -/
def Response.emptyAgent : Response :=
  { data := [], usage := Usage.empty, finish := .unfinished }

/-! ### A JSON reader, modelling `serde_json::from_str::<Value>`

The decoders call `serde_json::from_str` on accumulated tool-argument text.
The reader below accepts the JSON fragment the library exchanges (null,
booleans, integers, strings with the common escapes, arrays, objects);
numbers with a fractional part or exponent are rejected rather than
misread, matching the integer restriction of `Json.num`. -/

/-- Skip JSON whitespace. -/
def jsonSkipWs : List Char → List Char
  | [] => []
  | c :: cs => if c = ' ' ∨ c = '\n' ∨ c = '\t' ∨ c = '\r' then jsonSkipWs cs else c :: cs

/-- Read the remainder of a quoted string (the opening quote already
consumed), handling the common escapes. -/
def jsonReadStringAux : List Char → String → Option (String × List Char)
  | [], _ => none
  | c :: cs, acc =>
    if c = '"' then some (acc, cs)
    else if c = '\\' then
      match cs with
      | [] => none
      | e :: cs2 =>
        if e = '"' then jsonReadStringAux cs2 (acc.push '"')
        else if e = '\\' then jsonReadStringAux cs2 (acc.push '\\')
        else if e = '/' then jsonReadStringAux cs2 (acc.push '/')
        else if e = 'n' then jsonReadStringAux cs2 (acc.push '\n')
        else if e = 't' then jsonReadStringAux cs2 (acc.push '\t')
        else if e = 'r' then jsonReadStringAux cs2 (acc.push '\r')
        else none
    else jsonReadStringAux cs (acc.push c)

/-- Accumulate a run of decimal digits. -/
def jsonDigitsToNat (acc : Nat) : List Char → Nat × List Char
  | [] => (acc, [])
  | c :: cs =>
    if c.isDigit then jsonDigitsToNat (acc * 10 + (c.toNat - 48)) cs else (acc, c :: cs)

/-- Read a nonnegative integer; reject a following `.`/`e`/`E` (floats are
outside the embedded fragment). -/
def jsonReadNat (cs : List Char) : Option (Nat × List Char) :=
  match cs with
  | c :: _ =>
    if c.isDigit then
      let (n, rest) := jsonDigitsToNat 0 cs
      match rest with
      | r :: _ => if r = '.' ∨ r = 'e' ∨ r = 'E' then none else some (n, rest)
      | [] => some (n, rest)
    else none
  | [] => none

mutual

/-- Read one JSON value (fuel bounds nesting depth). -/
def jsonParseVal : Nat → List Char → Option (Json × List Char)
  | 0, _ => none
  | fuel + 1, cs =>
    match jsonSkipWs cs with
    | 'n' :: 'u' :: 'l' :: 'l' :: rest => some (.null, rest)
    | 't' :: 'r' :: 'u' :: 'e' :: rest => some (.bool true, rest)
    | 'f' :: 'a' :: 'l' :: 's' :: 'e' :: rest => some (.bool false, rest)
    | '"' :: rest =>
      match jsonReadStringAux rest "" with
      | some (s, r) => some (.str s, r)
      | none => none
    | '[' :: rest => jsonParseArr fuel (jsonSkipWs rest)
    | '{' :: rest => jsonParseObj fuel (jsonSkipWs rest)
    | c :: rest =>
      if c = '-' then
        match jsonReadNat rest with
        | some (n, r) => some (.num (-(n : Int)), r)
        | none => none
      else if c.isDigit then
        match jsonReadNat (c :: rest) with
        | some (n, r) => some (.num (n : Int), r)
        | none => none
      else none
    | [] => none

/-- Read an array body (opening bracket and leading whitespace consumed). -/
def jsonParseArr : Nat → List Char → Option (Json × List Char)
  | 0, _ => none
  | fuel + 1, cs =>
    match cs with
    | ']' :: rest => some (.arr [], rest)
    | _ =>
      match jsonParseVal fuel cs with
      | some (v, r) => jsonParseArrTail fuel [v] r
      | none => none

/-- Read the `, value` continuation of an array. -/
def jsonParseArrTail : Nat → List Json → List Char → Option (Json × List Char)
  | 0, _, _ => none
  | fuel + 1, acc, cs =>
    match jsonSkipWs cs with
    | ',' :: rest =>
      match jsonParseVal fuel rest with
      | some (v, r) => jsonParseArrTail fuel (acc ++ [v]) r
      | none => none
    | ']' :: rest => some (.arr acc, rest)
    | _ => none

/-- Read an object body (opening brace and leading whitespace consumed). -/
def jsonParseObj : Nat → List Char → Option (Json × List Char)
  | 0, _ => none
  | fuel + 1, cs =>
    match cs with
    | '}' :: rest => some (.obj [], rest)
    | _ =>
      match jsonParseMember fuel cs with
      | some (kv, r) => jsonParseObjTail fuel [kv] r
      | none => none

/-- Read one `"key": value` member. -/
def jsonParseMember : Nat → List Char → Option ((String × Json) × List Char)
  | 0, _ => none
  | fuel + 1, cs =>
    match jsonSkipWs cs with
    | '"' :: rest =>
      match jsonReadStringAux rest "" with
      | some (k, r) =>
        match jsonSkipWs r with
        | ':' :: r2 =>
          match jsonParseVal fuel r2 with
          | some (v, r3) => some ((k, v), r3)
          | none => none
        | _ => none
      | none => none
    | _ => none

/-- Read the `, "key": value` continuation of an object. -/
def jsonParseObjTail : Nat → List (String × Json) → List Char → Option (Json × List Char)
  | 0, _, _ => none
  | fuel + 1, acc, cs =>
    match jsonSkipWs cs with
    | ',' :: rest =>
      match jsonParseMember fuel rest with
      | some (kv, r) => jsonParseObjTail fuel (acc ++ [kv]) r
      | none => none
    | '}' :: rest => some (.obj acc, rest)
    | _ => none

end

/-- Model of `serde_json::from_str::<Value>`: read one value and require
only whitespace to remain. -/
def Json.parse (s : String) : Option Json :=
  match jsonParseVal (s.length + 1) s.data with
  | some (v, rest) => if jsonSkipWs rest = [] then some v else none
  | none => none

/-! ### Shared client error type (`client.rs::ClientError`) -/

/-- `ClientError` from `client.rs`; the HTTP and JSON variants carry their
rendered messages. -/
inductive ClientError where
  | http (msg : String)
  | parse (msg : String)
  | providerError (msg : String)
  | streamCancelled
  | config (msg : String)
deriving DecidableEq

/-- Parts of the single in-progress assistant message (`data[0]`). -/
def Response.headParts (r : Response) : List Part :=
  match r.data with
  | m :: _ => m.parts
  | [] => []

/-- Replace the parts of `data[0]` (the decoders always address `data[0]`,
which exists by construction). -/
def Response.setHeadParts (r : Response) (ps : List Part) : Response :=
  { r with data := match r.data with
      | m :: rest => m.withParts ps :: rest
      | [] => [] }

/-! ### Anthropic streaming decoder (`api/anthropic.rs`, `AnthropicStream::new`) -/

/-- Content blocks of `content_block_start` events; block kinds the decoder
ignores (`_ => {}` in the start handler) collapse into `other`. -/
inductive AnthropicBlock where
  | text (text : String)
  | toolUse (id : String) (name : String)
  | thinking (thinking : String) (signature : String)
  | other

/-- `AnthropicDelta` payloads of `content_block_delta` events. -/
inductive AnthropicDeltaE where
  | textDelta (text : String)
  | inputJsonDelta (fragment : String)
  | thinkingDelta (thinking : String)
  | signatureDelta (signature : String)

/-- `AnthropicStreamEvent`; `messageStart` retains only the usage counters
the decoder reads, `messageDelta` its optional stop reason and output-token
count. -/
inductive AnthropicEvent where
  | messageStart (inputTokens : Nat) (outputTokens : Nat)
  | contentBlockStart (index : Nat) (block : AnthropicBlock)
  | contentBlockDelta (index : Nat) (delta : AnthropicDeltaE)
  | contentBlockStop (index : Nat)
  | messageDelta (stopReason : Option String) (usageOutputTokens : Option Nat)
  | messageStop
  | ping
  | errorEvent (errorType : String) (message : String)

/-- The `tool_buffers: HashMap<u32, (String, String, String)>` side table:
index to (id, name, accumulated argument text). -/
def AnthropicBuffers := List (Nat × (String × String × String))

/-- Map insert (replace the entry for an existing key). -/
def bufInsert (k : Nat) (v : String × String × String) :
    AnthropicBuffers → AnthropicBuffers
  | [] => [(k, v)]
  | (k', v') :: rest =>
    if k' = k then (k, v) :: rest else (k', v') :: bufInsert k v rest

/-- Map lookup. -/
def bufLookup (k : Nat) : AnthropicBuffers → Option (String × String × String)
  | [] => none
  | (k', v) :: rest => if k' = k then some v else bufLookup k rest

/-- Map removal. -/
def bufRemove (k : Nat) (m : AnthropicBuffers) : AnthropicBuffers :=
  m.filter (fun e => e.1 ≠ k)

/-- `buffer.2.push_str(&partial_json)` on the entry for `k`, if present. -/
def bufAppendArgs (k : Nat) (s : String) : AnthropicBuffers → AnthropicBuffers
  | [] => []
  | (k', (i, n, b)) :: rest =>
    if k' = k then (k', (i, n, b ++ s)) :: rest
    else (k', (i, n, b)) :: bufAppendArgs k s rest

/-- Decoder state: the accumulator plus the tool-argument side buffers. -/
structure AnthropicState where
  response : Response
  toolBuffers : AnthropicBuffers

/-- Stop-reason mapping shared by the streaming `MessageDelta` handler and
the non-streaming conversion (`_ => Stop`, so a missing reason maps to
`Stop` as well). -/
def anthropicStopToFinish (r : Option String) : FinishReason :=
  match r with
  | some "end_turn" => .stop
  | some "max_tokens" => .outputTokens
  | some "stop_sequence" => .stop
  | some "tool_use" => .toolCalls
  | _ => .stop

/-- The `content_block_stop` mutation of the unit at the stopped index:
mark it finished; for a `FunctionCall`, additionally parse the removed
buffer's accumulated text into `arguments`, leaving `arguments` unchanged
when the parse fails. -/
def anthropicCloseAtStop (p : Part) (buf : Option (String × String × String)) : Part :=
  match p with
  | .text c _ => .text c true
  | .reasoning c s sig _ => .reasoning c s sig true
  | .functionCall id name args sig _ =>
    match buf with
    | some (_, _, jsonStr) =>
      match Json.parse jsonStr with
      | some v => .functionCall id name v sig true
      | none => .functionCall id name args sig true
    | none => .functionCall id name args sig true
  | .functionResponse id n r ps _ => .functionResponse id n r ps true
  | .media mt d m u _ => .media mt d m u true

/-- One step of `AnthropicStream::new`'s event loop. The explicit error
event is the only event that aborts the stream. -/
def anthropicStep (st : AnthropicState) : AnthropicEvent → Except ClientError AnthropicState
  | .messageStart inTok outTok =>
    .ok { st with response := { st.response with
      usage := { prompt_tokens := some inTok, completion_tokens := some outTok } } }
  | .contentBlockStart idx block =>
    match block with
    | .text t =>
      .ok { st with response :=
        st.response.setHeadParts (st.response.headParts ++ [.text t false]) }
    | .toolUse id name =>
      .ok { response :=
              st.response.setHeadParts (st.response.headParts ++ [.functionCall (some id) name .null none false]),
            toolBuffers := bufInsert idx (id, name, "") st.toolBuffers }
    | .thinking th sig =>
      .ok { st with response :=
        st.response.setHeadParts (st.response.headParts ++ [.reasoning th none (some sig) false]) }
    | .other => .ok st
  | .contentBlockDelta idx delta =>
    match (st.response.headParts).get? idx with
    | none => .ok st
    | some p =>
      match delta with
      | .textDelta t =>
        match p with
        | .text c f =>
          .ok { st with response :=
            st.response.setHeadParts ((st.response.headParts).set idx (.text (c ++ t) f)) }
        | _ => .ok st
      | .inputJsonDelta s =>
        .ok { st with toolBuffers := bufAppendArgs idx s st.toolBuffers }
      | .thinkingDelta t =>
        match p with
        | .reasoning c su sig f =>
          .ok { st with response :=
            st.response.setHeadParts ((st.response.headParts).set idx (.reasoning (c ++ t) su sig f)) }
        | _ => .ok st
      | .signatureDelta s =>
        match p with
        | .reasoning c su _ f =>
          .ok { st with response :=
            st.response.setHeadParts ((st.response.headParts).set idx (.reasoning c su (some s) f)) }
        | _ => .ok st
  | .contentBlockStop idx =>
    match (st.response.headParts).get? idx with
    | none => .ok st
    | some p =>
      let p' := anthropicCloseAtStop p (bufLookup idx st.toolBuffers)
      let bufs := match p with
        | .functionCall _ _ _ _ _ => bufRemove idx st.toolBuffers
        | _ => st.toolBuffers
      .ok { response := st.response.setHeadParts ((st.response.headParts).set idx p'),
            toolBuffers := bufs }
  | .messageDelta stopReason usageOut =>
    let r1 := match stopReason with
      | some r => { st.response with finish := anthropicStopToFinish (some r) }
      | none => st.response
    let r2 := match usageOut with
      | some o => { r1 with usage := { r1.usage with completion_tokens := some o } }
      | none => r1
    .ok { st with response := r2 }
  | .messageStop => .ok st
  | .ping => .ok st
  | .errorEvent t m =>
    .error (.providerError ("Stream error (" ++ t ++ "): " ++ m))

/-- Fold the decoder over an event list, aborting on an error event. -/
def anthropicFold (st : AnthropicState) : List AnthropicEvent → Except ClientError AnthropicState
  | [] => .ok st
  | e :: es =>
    match anthropicStep st e with
    | .ok st' => anthropicFold st' es
    | .error err => .error err

/-- Initial decoder state: one empty assistant message, default usage,
`Unfinished`, empty buffers. -/
def anthropicInit : AnthropicState :=
  { response := { data := [Message.assistant []], usage := Usage.empty, finish := .unfinished },
    toolBuffers := [] }

/-- Run the Anthropic stream decoder from its initial state. -/
def anthropicRun (events : List AnthropicEvent) : Except ClientError AnthropicState :=
  anthropicFold anthropicInit events

/-- The content units of the final snapshot (none when the stream aborted). -/
def anthropicRunParts (events : List AnthropicEvent) : Option (List Part) :=
  match anthropicRun events with
  | .ok st => some st.response.headParts
  | .error _ => none

/-! ### Anthropic non-streaming conversion (`impl From<AnthropicResponse> for Response`) -/

/-- Content blocks of a complete (non-streaming) Anthropic response. -/
inductive AnthropicRespBlock where
  | text (text : String)
  | toolUse (id : String) (name : String) (input : Json)
  | thinking (thinking : String) (signature : String)
  | redactedThinking (data : String)
  | other

/-- A complete Anthropic response: content blocks, optional stop reason,
usage counters. -/
structure AnthropicResponseNS where
  content : List AnthropicRespBlock
  stopReason : Option String
  usageInput : Nat
  usageOutput : Nat

/-- `impl From<AnthropicResponse> for Response` (anthropic.rs lines 669-719):
every unit is created `finished=true`; the finish reason defaults to `Stop`. -/
def anthropicConvert (resp : AnthropicResponseNS) : Response :=
  { data := [Message.assistant (resp.content.filterMap (fun b =>
      match b with
      | .text t => some (.text t true)
      | .toolUse id name input => some (.functionCall (some id) name input none true)
      | .thinking th sig => some (.reasoning th none (some sig) true)
      | .redactedThinking _ => none
      | .other => none))],
    usage := { prompt_tokens := some resp.usageInput,
               completion_tokens := some resp.usageOutput },
    finish := anthropicStopToFinish resp.stopReason }

/-! ### Gemini streaming decoder (`api/gemini.rs`, `GeminiStream::new`) -/

/-- The decoder's `PartType` tracker (`last_part_type`). -/
inductive GPartType where
  | text
  | reasoning
  | functionCall
deriving DecidableEq

/-- `GeminiPart` as deserialized from a chunk. A function response carries
its optional inline-data blobs as (mimeType, data) pairs. -/
inductive GeminiPartE where
  | text (text : String) (thought : Option Bool)
  | functionCall (name : String) (args : Json) (thoughtSignature : Option String)
  | functionResponse (name : String) (response : Json) (parts : Option (List (String × String)))
  | inlineData (mimeType : String) (data : String)

/-- `GeminiCandidate`: optional content (its parts) and finish reason. -/
structure GeminiCandidateE where
  content : Option (List GeminiPartE)
  finishReason : Option String

/-- `GeminiUsageMetadata`. -/
structure GeminiUsageMeta where
  promptTokenCount : Nat
  candidatesTokenCount : Option Nat
  thoughtsTokenCount : Option Nat

/-- `GeminiResponse`: one streamed chunk, or a whole non-streaming response. -/
structure GeminiChunk where
  candidates : Option (List GeminiCandidateE)
  usageMetadata : Option GeminiUsageMeta

/-- Apply `f` to the last element (`parts.last_mut()`), if any. -/
def mapLast (f : Part → Part) (ps : List Part) : List Part :=
  match ps.getLast? with
  | some p => ps.dropLast ++ [f p]
  | none => ps

/-- Kind-transition closure before a text/thought chunk (gemini.rs lines
209-217): Text, Reasoning and FunctionCall are closed, other kinds are left
alone (`_ => {}`). -/
def geminiCloseKindText : Part → Part
  | .text c _ => .text c true
  | .reasoning c s g _ => .reasoning c s g true
  | .functionCall i n a g _ => .functionCall i n a g true
  | p => p

/-- Kind-transition closure before a function-call chunk (gemini.rs lines
258-264): only Text and Reasoning are closed. -/
def geminiCloseKindCall : Part → Part
  | .text c _ => .text c true
  | .reasoning c s g _ => .reasoning c s g true
  | p => p

/-- Force-finish a unit of any kind (the five-armed closure run by the
Gemini finish-reason handler and, with argument parsing added, echoed by
the OpenAI one). -/
def Part.forceFinish : Part → Part
  | .text c _ => .text c true
  | .reasoning c s g _ => .reasoning c s g true
  | .functionCall i n a g _ => .functionCall i n a g true
  | .functionResponse i n r ps _ => .functionResponse i n r ps true
  | .media mt d m u _ => .media mt d m u true

/-- Fold one `GeminiPart` of a chunk into the open parts list and the
`last_part_type` tracker. -/
def geminiPartStep : List Part × Option GPartType → GeminiPartE → List Part × Option GPartType
  | (parts, lastT), .text txt thought =>
    let isThought := thought.getD false
    let curT : GPartType := if isThought then .reasoning else .text
    let parts :=
      match lastT with
      | some lt => if lt ≠ curT then mapLast geminiCloseKindText parts else parts
      | none => parts
    let shouldAppend :=
      match parts.getLast?, isThought with
      | some (.text _ false), false => true
      | some (.reasoning _ _ _ false), true => true
      | _, _ => false
    let parts :=
      if shouldAppend then
        mapLast (fun p =>
          match p with
          | .text c f => .text (c ++ txt) f
          | .reasoning c s g f => .reasoning (c ++ txt) s g f
          | q => q) parts
      else if isThought then parts ++ [.reasoning txt none none false]
      else parts ++ [.text txt false]
    (parts, some curT)
  | (parts, lastT), .functionCall name args sig =>
    let parts :=
      match lastT with
      | some lt => if lt ≠ GPartType.functionCall then mapLast geminiCloseKindCall parts else parts
      | none => parts
    (parts ++ [.functionCall none name args sig false], some .functionCall)
  | (parts, lastT), .functionResponse _ _ _ => (parts, lastT)
  | (parts, lastT), .inlineData _ _ => (parts, lastT)

/-- The Gemini finish-reason string mapping (identical in the stream
decoder and the non-streaming conversion). -/
def geminiFinishToReason (r : String) : FinishReason :=
  match r with
  | "STOP" => .stop
  | "MAX_TOKENS" => .outputTokens
  | "SAFETY" => .contentFilter
  | "RECITATION" => .contentFilter
  | _ => .stop

/-- One chunk of `GeminiStream::new`'s event loop: merge usage, fold the
first candidate's parts, then on a finish reason force-close every unit and
record the mapped reason. -/
def geminiStep (st : Response × Option GPartType) (chunk : GeminiChunk) :
    Response × Option GPartType :=
  let (resp, lastT) := st
  let resp :=
    match chunk.usageMetadata with
    | some um =>
      { resp with usage :=
          { prompt_tokens := some um.promptTokenCount,
            completion_tokens := some (um.candidatesTokenCount.getD 0 + um.thoughtsTokenCount.getD 0) } }
    | none => resp
  match chunk.candidates with
  | some (cand :: _) =>
    let (resp, lastT) :=
      match cand.content with
      | some gparts =>
        let (ps, lt) := gparts.foldl geminiPartStep (resp.headParts, lastT)
        (resp.setHeadParts ps, lt)
      | none => (resp, lastT)
    match cand.finishReason with
    | some fr =>
      let resp := resp.setHeadParts (resp.headParts.map Part.forceFinish)
      ({ resp with finish := geminiFinishToReason fr }, lastT)
    | none => (resp, lastT)
  | _ => (resp, lastT)

/-- Initial Gemini decoder state. -/
def geminiInit : Response × Option GPartType :=
  ({ data := [Message.assistant []], usage := Usage.empty, finish := .unfinished }, none)

/-- Run the Gemini stream decoder over a chunk sequence. -/
def geminiRun (events : List GeminiChunk) : Response × Option GPartType :=
  events.foldl geminiStep geminiInit

/-! ### Gemini non-streaming conversion (`impl From<GeminiResponse> for Response`) -/

/-- Per-part conversion of the non-streaming path: all units are created
`finished=true`; inline data at the top level is dropped (`_ => {}`). -/
def geminiConvertPart : GeminiPartE → Option Part
  | .text t thought =>
    if thought.getD false then some (.reasoning t none none true)
    else some (.text t true)
  | .functionCall name args sig => some (.functionCall none name args sig true)
  | .functionResponse name resp ps =>
    some (.functionResponse none name resp
      ((ps.getD []).map (fun blob => Part.media .binary blob.2 blob.1 none true)) true)
  | .inlineData _ _ => none

/-- `impl From<GeminiResponse> for Response` (gemini.rs lines 575-657):
`finish_reason` starts as `Unfinished` and is replaced only when the first
candidate carries a finish reason. -/
def geminiConvert (resp : GeminiChunk) : Response :=
  let pf :=
    match resp.candidates with
    | some (cand :: _) =>
      (match cand.content with
       | some gps => gps.filterMap geminiConvertPart
       | none => [],
       match cand.finishReason with
       | some reason => geminiFinishToReason reason
       | none => FinishReason.unfinished)
    | _ => ([], FinishReason.unfinished)
  { data := [Message.assistant pf.1],
    usage :=
      match resp.usageMetadata with
      | some u =>
        { prompt_tokens := some u.promptTokenCount,
          completion_tokens := some (u.candidatesTokenCount.getD 0 + u.thoughtsTokenCount.getD 0) }
      | none => Usage.empty,
    finish := pf.2 }

/-! ### OpenAI streaming decoder (`api/openai.rs`, `OpenAiStream::new`) -/

/-- `OpenAiStreamFunction`: optional name and argument-string fragments. -/
structure OpenAiStreamFunctionE where
  name : Option String
  arguments : Option String

/-- `OpenAiStreamToolCall`: provider-assigned index plus fragments. -/
structure OpenAiStreamToolCallE where
  index : Nat
  id : Option String
  function : Option OpenAiStreamFunctionE

/-- `OpenAiDelta`. -/
structure OpenAiDeltaE where
  content : Option String
  toolCalls : Option (List OpenAiStreamToolCallE)

/-- `OpenAiStreamChoice`. -/
structure OpenAiStreamChoiceE where
  delta : Option OpenAiDeltaE
  finishReason : Option String

/-- `OpenAiUsage`. -/
structure OpenAiUsageE where
  promptTokens : Nat
  completionTokens : Nat

/-- `OpenAiStreamChunk` (the decoder ignores `id`). -/
structure OpenAiChunk where
  choices : List OpenAiStreamChoiceE
  usage : Option OpenAiUsageE

/-- OpenAI decoder state: accumulator, `tool_index_map` (provider tool-call
index to parts position) and `current_text_part_index`. -/
structure OpenAiState where
  response : Response
  toolIndexMap : List (Nat × Nat)
  currentTextIdx : Option Nat

/-- Lookup in `tool_index_map`. -/
def idxLookup (k : Nat) : List (Nat × Nat) → Option Nat
  | [] => none
  | (k', v) :: rest => if k' = k then some v else idxLookup k rest

/-- Insert into `tool_index_map` (replace an existing key). -/
def idxInsert (k : Nat) (v : Nat) : List (Nat × Nat) → List (Nat × Nat)
  | [] => [(k, v)]
  | (k', v') :: rest =>
    if k' = k then (k, v) :: rest else (k', v') :: idxInsert k v rest

/-- Apply one streamed tool-call delta: lazily create the unit on first
sight of a new index (`entry(...).or_insert_with`), then append id, name
and argument fragments into that unit. -/
def openaiApplyToolCall (st : List Part × List (Nat × Nat)) (tc : OpenAiStreamToolCallE) :
    List Part × List (Nat × Nat) :=
  let (parts0, tmap0) := st
  let ipt :=
    match idxLookup tc.index tmap0 with
    | some i => (i, parts0, tmap0)
    | none =>
      let parts1 := parts0 ++ [Part.functionCall none "" (Json.str "") none false]
      (parts1.length - 1, parts1, idxInsert tc.index (parts1.length - 1) tmap0)
  let idx := ipt.1
  let parts := ipt.2.1
  let tmap := ipt.2.2
  match parts.get? idx with
  | some (.functionCall pid pname pargs psig pfin) =>
    let pid :=
      match tc.id with
      | some i => some i
      | none => pid
    let na :=
      match tc.function with
      | some f =>
        (match f.name with
         | some n => pname ++ n
         | none => pname,
         match f.arguments with
         | some a =>
           match pargs with
           | .str s => Json.str (s ++ a)
           | other => other
         | none => pargs)
      | none => (pname, pargs)
    (parts.set idx (.functionCall pid na.1 na.2 psig pfin), tmap)
  | _ => (parts, tmap)

/-- Apply a streamed text delta: append to the tracked text unit, creating
it on first sight. -/
def openaiApplyContent (parts : List Part) (curIdx : Option Nat) (s : String) :
    List Part × Option Nat :=
  match curIdx with
  | some idx =>
    match parts.get? idx with
    | some (.text c f) => (parts.set idx (.text (c ++ s) f), some idx)
    | _ => (parts, some idx)
  | none =>
    let parts1 := parts ++ [Part.text s false]
    (parts1, some (parts1.length - 1))

/-- The OpenAI finish-reason closure of a single unit: mark it finished;
parse a FunctionCall's accumulated argument string, degrading to the empty
JSON object when the parse fails. -/
def openaiFinishClose : Part → Part
  | .text c _ => .text c true
  | .reasoning c s g _ => .reasoning c s g true
  | .functionCall i n a g _ =>
    match a with
    | .str s =>
      match Json.parse s with
      | some v => .functionCall i n v g true
      | none => .functionCall i n (.obj []) g true
    | other => .functionCall i n other g true
  | .functionResponse i n r ps _ => .functionResponse i n r ps true
  | .media mt d m u _ => .media mt d m u true

/-- The OpenAI finish-reason string mapping (identical in the stream
decoder and the non-streaming conversion). -/
def openaiFinishToReason (r : String) : FinishReason :=
  match r with
  | "stop" => .stop
  | "length" => .outputTokens
  | "tool_calls" => .toolCalls
  | "content_filter" => .contentFilter
  | _ => .stop

/-- Process one choice of a chunk: apply its delta, then on a finish reason
force-close every unit (parsing call arguments) and record the reason. -/
def openaiChoiceStep (st : OpenAiState) (choice : OpenAiStreamChoiceE) : OpenAiState :=
  let st :=
    match choice.delta with
    | some delta =>
      let pc :=
        match delta.content with
        | some c => openaiApplyContent st.response.headParts st.currentTextIdx c
        | none => (st.response.headParts, st.currentTextIdx)
      let pt :=
        match delta.toolCalls with
        | some tcs => tcs.foldl openaiApplyToolCall (pc.1, st.toolIndexMap)
        | none => (pc.1, st.toolIndexMap)
      { response := st.response.setHeadParts pt.1,
        toolIndexMap := pt.2,
        currentTextIdx := pc.2 }
    | none => st
  match choice.finishReason with
  | some fr =>
    let resp := st.response.setHeadParts (st.response.headParts.map openaiFinishClose)
    { st with response := { resp with finish := openaiFinishToReason fr } }
  | none => st

/-- One chunk of `OpenAiStream::new`'s event loop: merge usage, then fold
the choices. -/
def openaiStep (st : OpenAiState) (chunk : OpenAiChunk) : OpenAiState :=
  let st :=
    match chunk.usage with
    | some u =>
      { st with response := { st.response with usage :=
          { prompt_tokens := some u.promptTokens,
            completion_tokens := some u.completionTokens } } }
    | none => st
  chunk.choices.foldl openaiChoiceStep st

/-- Initial OpenAI decoder state. -/
def openaiInit : OpenAiState :=
  { response := { data := [Message.assistant []], usage := Usage.empty, finish := .unfinished },
    toolIndexMap := [],
    currentTextIdx := none }

/-- Run the OpenAI stream decoder over a chunk sequence. -/
def openaiRun (events : List OpenAiChunk) : OpenAiState :=
  events.foldl openaiStep openaiInit

/-- The snapshots yielded by the OpenAI stream: one per chunk, always. -/
def openaiRunSnaps (events : List OpenAiChunk) : List Response :=
  (events.foldl (fun (acc : OpenAiState × List Response) ch =>
    let st := openaiStep acc.1 ch
    (st, acc.2 ++ [st.response])) (openaiInit, [])).2

/-! ### OpenAI non-streaming conversion (`impl From<OpenAiResponse> for Response`) -/

/-- A complete tool call of a non-streaming response. -/
structure OpenAiToolCallNS where
  id : String
  name : String
  arguments : String

/-- `OpenAiResponseMessage`. -/
structure OpenAiRespMessageNS where
  content : Option String
  toolCalls : Option (List OpenAiToolCallNS)

/-- `OpenAiChoice`. -/
structure OpenAiChoiceNS where
  message : OpenAiRespMessageNS
  finishReason : Option String

/-- `OpenAiResponse`. -/
structure OpenAiResponseNS where
  choices : List OpenAiChoiceNS
  usage : Option OpenAiUsageE

/-- `impl From<OpenAiResponse> for Response` (openai.rs lines 550-593):
`finish_reason` starts at `Stop`; call arguments parse with a `Null`
fallback; every unit is created `finished=true`. -/
def openaiConvert (resp : OpenAiResponseNS) : Response :=
  let pf :=
    match resp.choices with
    | choice :: _ =>
      ((match choice.message.content with
        | some c => [Part.text c true]
        | none => []) ++
       (match choice.message.toolCalls with
        | some tcs => tcs.map (fun (tc : OpenAiToolCallNS) =>
            Part.functionCall (some tc.id) tc.name ((Json.parse tc.arguments).getD Json.null) none true)
        | none => []),
       match choice.finishReason with
       | some r => openaiFinishToReason r
       | none => FinishReason.stop)
    | [] => ([], FinishReason.stop)
  { data := [Message.assistant pf.1],
    usage :=
      match resp.usage with
      | some u =>
        { prompt_tokens := some u.promptTokens,
          completion_tokens := some u.completionTokens }
      | none => Usage.empty,
    finish := pf.2 }

/-! ### Agent loop (`agent.rs`)

`Agent::chat` and `Agent::chat_stream` are embedded over deterministic
models of their two collaborators: the transport client (a function of the
conversation and tool catalogue) and the MCP server. Both loops are
instrumented with the trace of transport requests made and of `call_tool`
invocations performed; the un-instrumented results are projections. -/

/-- `rmcp::model::Tool` as the agent forwards it. -/
structure ToolDef where
  name : String
  description : Option String
  inputSchema : Json

/-- `Served<T>` from `mcp.rs`. -/
structure Served (α : Type) where
  value : α
  serverId : String

/-- `MCPError`, modelled by its rendered display string (the agent only
ever formats it). -/
abbrev MCPError := String

/-- A deterministic model of `dyn MCPServer` as the agent uses it. -/
structure MCPServerModel where
  listTools : Except MCPError (List (Served ToolDef))
  callTool : String → Json → Except MCPError Part

/-- A provider stream: the successfully decoded snapshots, then an
optional terminal error. -/
structure StreamModel where
  chunks : List Response
  fail : Option ClientError

/-- A deterministic model of the transport client (`Client::request`,
`StreamingClient::request_stream`). -/
structure ClientModel where
  request : List Message → List ToolDef → Except ClientError Response
  requestStream : List Message → List ToolDef → Except ClientError StreamModel

/-- `Agent` (agent.rs lines 31-35). -/
structure Agent where
  client : ClientModel
  maxIterations : Nat
  server : Option MCPServerModel

/-- Overwrite the id of a `FunctionResponse` result with the call's id
(`if let Part::FunctionResponse { id: ref mut pid, .. } = part`). -/
def setRespId : Part → Option String → Part
  | .functionResponse _ n r ps f, id => .functionResponse id n r ps f
  | p, _ => p

/-- One `call_tool` round trip as both loops perform it: a successful part
gets the call's id; a failure becomes a finished `FunctionResponse` whose
response is the object `{"error": "Error: <e>"}`. -/
def runToolCall (srv : MCPServerModel) (id : Option String) (name : String) (args : Json) : Part :=
  match srv.callTool name args with
  | .ok p => setRespId p id
  | .error e =>
    .functionResponse id name (Json.obj [("error", Json.str ("Error: " ++ e))]) [] true

/-- The inner part loop of one `Agent::chat` round (agent.rs lines
122-167): every `FunctionCall` unit — finished or not — is executed, and
each execution immediately appends its own single-part `User` message to
both the history and the output. -/
def chatProcessParts (server : Option MCPServerModel) :
    List Part → List Message → List Message → Bool → List (String × Json) →
    Except ClientError (List Message × List Message × Bool × List (String × Json))
  | [], ms, out, ex, calls => .ok (ms, out, ex, calls)
  | p :: rest, ms, out, ex, calls =>
    match p with
    | .functionCall id name args _ _ =>
      match server with
      | none => .error (.config "No MCP server configured")
      | some srv =>
        let rmsg := Message.user [runToolCall srv id name args]
        chatProcessParts server rest (ms ++ [rmsg]) (out ++ [rmsg]) true (calls ++ [(name, args)])
    | _ => chatProcessParts server rest ms out ex calls

/-- The message loop of one `Agent::chat` round: push each response
message to history and output, then run its part loop. -/
def chatProcessData (server : Option MCPServerModel) :
    List Message → List Message → List Message → Bool → List (String × Json) →
    Except ClientError (List Message × List Message × Bool × List (String × Json))
  | [], ms, out, ex, calls => .ok (ms, out, ex, calls)
  | msg :: rest, ms, out, ex, calls =>
    match chatProcessParts server msg.parts (ms ++ [msg]) (out ++ [msg]) ex calls with
    | .ok r4 => chatProcessData server rest r4.1 r4.2.1 r4.2.2.1 r4.2.2.2
    | .error e => .error e

/-- The `for iteration in 0..max_iterations` loop of `Agent::chat`
(fuel = remaining iterations). -/
def chatLoop (a : Agent) (tools : List ToolDef) :
    Nat → List Message → Response → List (List Message) → List (String × Json) →
    Except ClientError Response × List (List Message) × List (String × Json)
  | 0, _, _, reqs, calls =>
    (.error (.config "Max iterations reached in agent loop"), reqs, calls)
  | n + 1, messages, current, reqs, calls =>
    match a.client.request messages tools with
    | .error e => (.error e, reqs ++ [messages], calls)
    | .ok response =>
      let cur1 : Response :=
        { current with usage := current.usage.add response.usage, finish := response.finish }
      match chatProcessData a.server response.data messages cur1.data false calls with
      | .error e => (.error e, reqs ++ [messages], calls)
      | .ok r4 =>
        let cur2 := { cur1 with data := r4.2.1 }
        if r4.2.2.1 then chatLoop a tools n r4.1 cur2 (reqs ++ [messages]) r4.2.2.2
        else (.ok cur2, reqs ++ [messages], r4.2.2.2)

/-- `Agent::chat`, instrumented. On an MCP catalogue failure the loop is
never entered and no transport request is made. -/
def Agent.chatTraced (a : Agent) (messages : List Message) :
    Except ClientError Response × List (List Message) × List (String × Json) :=
  match a.server with
  | some srv =>
    match srv.listTools with
    | .ok tl =>
      chatLoop a (tl.map (fun s => s.value)) a.maxIterations messages Response.emptyAgent [] []
    | .error e =>
      (.error (.providerError ("Failed to list tools from MCP server: " ++ e)), [], [])
  | none => chatLoop a [] a.maxIterations messages Response.emptyAgent [] []

/-- `Agent::chat`: the result alone. -/
def Agent.chat (a : Agent) (messages : List Message) : Except ClientError Response :=
  (a.chatTraced messages).1

/-- One chunk update of a streaming round (agent.rs lines 248-257):
truncate the accumulator to the round's base length, extend with the
chunk's data, and rebase usage and finish on the chunk. -/
def streamRoundStep (baseLen : Nat) (baseUsage : Usage) (current : Response) (chunk : Response) :
    Response :=
  { data := current.data.take baseLen ++ chunk.data,
    usage := baseUsage.add chunk.usage,
    finish := chunk.finish }

/-- Fold a round's chunks, collecting the snapshot yielded after each. -/
def streamRoundFold (baseLen : Nat) (baseUsage : Usage) :
    Response → List Response → Response × List Response
  | cur, [] => (cur, [])
  | cur, c :: cs =>
    let cur1 := streamRoundStep baseLen baseUsage cur c
    let res := streamRoundFold baseLen baseUsage cur1 cs
    (res.1, cur1 :: res.2)

/-- The post-stream tool scan of `Agent::chat_stream` (agent.rs lines
274-305): only `FunctionCall` units with `finished=true` in the round's
last message are executed; their responses are collected for one bundled
message. -/
def streamCollectTools (server : Option MCPServerModel) :
    List Part → List Part → Bool → List (String × Json) →
    Except ClientError (List Part × Bool × List (String × Json))
  | [], resps, ex, calls => .ok (resps, ex, calls)
  | p :: rest, resps, ex, calls =>
    match p with
    | .functionCall id name args _ true =>
      match server with
      | none => .error (.config "No MCP server configured")
      | some srv =>
        streamCollectTools server rest (resps ++ [runToolCall srv id name args]) true
          (calls ++ [(name, args)])
    | _ => streamCollectTools server rest resps ex calls

/-- The round loop of `Agent::chat_stream`, instrumented: the snapshots
yielded so far, the terminal error if any (`try_stream!` emits it as the
final stream item), and the request and tool-call traces. -/
def chatStreamLoop (a : Agent) (tools : List ToolDef) :
    Nat → List Message → Response → List Response → List (List Message) → List (String × Json) →
    List Response × Option ClientError × List (List Message) × List (String × Json)
  | 0, _, _, snaps, reqs, calls =>
    (snaps, some (.config "Max iterations reached in agent loop"), reqs, calls)
  | n + 1, messages, current, snaps, reqs, calls =>
    match a.client.requestStream messages tools with
    | .error e => (snaps, some e, reqs ++ [messages], calls)
    | .ok sm =>
      let baseLen := current.data.length
      let fr := streamRoundFold baseLen current.usage current sm.chunks
      let fin := fr.1
      let snaps1 := snaps ++ fr.2
      match sm.fail with
      | some e => (snaps1, some e, reqs ++ [messages], calls)
      | none =>
        let messages1 := messages ++ fin.data.drop baseLen
        let lastParts :=
          match fin.data.getLast? with
          | some m => m.parts
          | none => []
        match streamCollectTools a.server lastParts [] false calls with
        | .error e => (snaps1, some e, reqs ++ [messages], calls)
        | .ok r3 =>
          if r3.2.1 then
            let toolMsg := Message.user r3.1
            let fin1 := { fin with data := fin.data ++ [toolMsg] }
            chatStreamLoop a tools n (messages1 ++ [toolMsg]) fin1 (snaps1 ++ [fin1])
              (reqs ++ [messages]) r3.2.2
          else (snaps1, none, reqs ++ [messages], r3.2.2)

/-- `Agent::chat_stream`, instrumented. An MCP catalogue failure is only
logged (`warn!`): the loop proceeds with an empty tool catalogue. -/
def Agent.chatStreamTraced (a : Agent) (messages : List Message) :
    List Response × Option ClientError × List (List Message) × List (String × Json) :=
  let tools :=
    match a.server with
    | some srv =>
      match srv.listTools with
      | .ok tl => tl.map (fun s => s.value)
      | .error _ => []
    | none => []
  chatStreamLoop a tools a.maxIterations messages Response.emptyAgent [] [] []

/-! ### Derived predicates used by the theorems -/

/-- Is a unit a `FunctionCall`? -/
def Part.isCall : Part → Bool
  | .functionCall _ _ _ _ _ => true
  | _ => false

/-- Is a unit a `FunctionCall` with `finished=true`? -/
def Part.isFinishedCall : Part → Bool
  | .functionCall _ _ _ _ f => f
  | _ => false

/-- name and arguments of a `FunctionCall` unit. -/
def Part.callOf : Part → Option (String × Json)
  | .functionCall _ name args _ _ => some (name, args)
  | _ => none

/-- name and arguments of a finished `FunctionCall` unit. -/
def Part.finishedCallOf : Part → Option (String × Json)
  | .functionCall _ name args _ true => some (name, args)
  | _ => none

/-- Does some message carry a `FunctionCall` unit? -/
def dataHasCall (msgs : List Message) : Bool :=
  msgs.any (fun m => m.parts.any Part.isCall)

/-- Every unit of every message of a response is finished. -/
def Response.allFinished (r : Response) : Prop :=
  ∀ m ∈ r.data, ∀ p ∈ m.parts, p.finished = true

/-- The shape `chat_stream` requires of a round's stream to keep looping:
its last chunk ends with a message carrying a finished `FunctionCall`. -/
def StreamModel.lastHasFinishedCall (sm : StreamModel) : Bool :=
  match sm.chunks.getLast? with
  | some c =>
    match c.data.getLast? with
    | some m => m.parts.any Part.isFinishedCall
    | none => false
  | none => false

/-- Is a JSON value the empty object? -/
def Json.isEmptyObj : Json → Bool
  | .obj [] => true
  | _ => false

/-- Is a message a `User` message? -/
def isUserMsg : Message → Bool
  | .user _ => true
  | _ => false

/-- The single-part tool-result `User` messages `Agent::chat` appends for
the `FunctionCall` units of one message, in source order. -/
def partsRespMsgs (srv : MCPServerModel) (parts : List Part) : List Message :=
  parts.filterMap (fun p =>
    match p with
    | .functionCall id n a _ _ => some (Message.user [runToolCall srv id n a])
    | _ => none)

/-- The messages one `Agent::chat` round appends for a response's data:
each message followed by its per-call tool-result messages. -/
def dataRespMsgs (srv : MCPServerModel) : List Message → List Message
  | [] => []
  | m :: rest => m :: (partsRespMsgs srv m.parts ++ dataRespMsgs srv rest)

/-- The `call_tool` invocations one `Agent::chat` round performs for a
response's data, in source order. -/
def dataCalls : List Message → List (String × Json)
  | [] => []
  | m :: rest => m.parts.filterMap Part.callOf ++ dataCalls rest

/-- The synthesized responses `Agent::chat_stream` bundles for the finished
calls of the round's last message, in source order. -/
def streamRespParts (srv : MCPServerModel) (parts : List Part) : List Part :=
  parts.filterMap (fun p =>
    match p with
    | .functionCall id n a _ true => some (runToolCall srv id n a)
    | _ => none)

/-! ### Concrete scripted collaborators used by witnesses and counterexamples -/

/-- A scripted MCP server whose catalogue listing fails. -/
def srvListFail : MCPServerModel :=
  { listTools := .error "no transport", callTool := fun _ _ => .error "unused" }

/-- A fixed plain-text terminal response. -/
def respPlain : Response :=
  { data := [Message.assistant [.text "done" true]], usage := Usage.empty, finish := .stop }

/-- A scripted transport that always answers with `respPlain`. -/
def clientPlain : ClientModel :=
  { request := fun _ _ => .ok respPlain,
    requestStream := fun _ _ => .ok { chunks := [respPlain], fail := none } }

/-- Agent for the C10 witness: plain transport, failing catalogue. -/
def agentC10 : Agent :=
  { client := clientPlain, maxIterations := 3, server := some srvListFail }

/-- An MCP server exposing no tools whose calls always succeed with an
empty-object `FunctionResponse`. -/
def srvOk : MCPServerModel :=
  { listTools := .ok [],
    callTool := fun n _ => .ok (.functionResponse none n (Json.obj []) [] true) }

/-- An MCP server exposing no tools whose calls always fail. -/
def srvFailBoom : MCPServerModel :=
  { listTools := .ok [], callTool := fun _ _ => .error "boom" }

/-- A response holding one finished `FunctionCall`. -/
def respCallFin : Response :=
  { data := [Message.assistant [.functionCall (some "call_1") "f" .null none true]],
    usage := Usage.empty, finish := .toolCalls }

/-- Agent for the C2 witness: every round answers with `respCallFin`
(non-streaming and streaming alike). -/
def agentC2 : Agent :=
  { client :=
      { request := fun _ _ => .ok respCallFin,
        requestStream := fun _ _ => .ok { chunks := [respCallFin], fail := none } },
    maxIterations := 2,
    server := some srvOk }

/-- Agent for the C3 witness: first round issues a call (whose execution
will fail), second round answers plainly; scripted by history length. -/
def agentC3 : Agent :=
  { client :=
      { request := fun ms _ => .ok (if ms.length ≤ 1 then respCallFin else respPlain),
        requestStream := fun _ _ => .ok { chunks := [], fail := none } },
    maxIterations := 2,
    server := some srvFailBoom }

/-- A response holding one `FunctionCall` that is still streaming
(`finished=false`). -/
def respCallUnfin : Response :=
  { data := [Message.assistant [.functionCall (some "call_1") "f" .null none false]],
    usage := Usage.empty, finish := .stop }

/-- Agent for the C4 counterexample: round one returns an unfinished call,
round two a plain response. -/
def agentC4 : Agent :=
  { client :=
      { request := fun ms _ => .ok (if ms.length ≤ 1 then respCallUnfin else respPlain),
        requestStream := fun _ _ => .ok { chunks := [], fail := none } },
    maxIterations := 3,
    server := some srvOk }

/-- Agent for the C2 counterexample: every streamed round's snapshot
carries a `FunctionCall` part, but one that is still unfinished
(`finished=false`) in the final snapshot's last message. -/
def agentC2s : Agent :=
  { client :=
      { request := fun _ _ => .ok respCallUnfin,
        requestStream := fun _ _ => .ok { chunks := [respCallUnfin], fail := none } },
    maxIterations := 3,
    server := some srvOk }

/-- Two finished calls issued in one assistant message. -/
def respTwoCalls : Response :=
  { data := [Message.assistant [.functionCall (some "call_1") "f" .null none true,
                                .functionCall (some "call_2") "g" .null none true]],
    usage := Usage.empty, finish := .toolCalls }

/-- Agent for the C5 counterexample: round one returns two calls in one
message, round two a plain response. -/
def agentC5 : Agent :=
  { client :=
      { request := fun ms _ => .ok (if ms.length ≤ 1 then respTwoCalls else respPlain),
        requestStream := fun _ _ => .ok { chunks := [], fail := none } },
    maxIterations := 3,
    server := some srvOk }

/-- Agent for the C8 witness: no tool server, plain transport. -/
def agentC8 : Agent :=
  { client := clientPlain, maxIterations := 2, server := none }

/-- C1 counterexample events for the Anthropic decoder: a text block is
opened, then the stream ends in the stop signal (`message_delta` with a
stop reason followed by `message_stop`) without a `content_block_stop`. -/
def c1CexEvents : List AnthropicEvent :=
  [.contentBlockStart 0 (.text "partial"),
   .messageDelta (some "end_turn") none,
   .messageStop]

/-- C7 counterexample events for the Anthropic decoder: a tool-use block
accumulates malformed argument JSON and is closed, then the stream stops. -/
def c7CexEvents : List AnthropicEvent :=
  [.contentBlockStart 0 (.toolUse "toolu_1" "get"),
   .contentBlockDelta 0 (.inputJsonDelta "\x7bbad"),
   .contentBlockStop 0,
   .messageDelta (some "tool_use") none,
   .messageStop]

/-- C8 counterexample input: a Gemini response carrying no candidates. -/
def geminiNoCandResp : GeminiChunk := { candidates := none, usageMetadata := none }

/-- C8 counterexample input: a Gemini response whose candidate lacks a
finish reason. -/
def geminiNoReasonResp : GeminiChunk :=
  { candidates := some [{ content := none, finishReason := none }], usageMetadata := none }

/-! ## Theorems

### C6: the `Usage` merge algebra -/

theorem optU32Add_assoc (x y z : Option Nat) :
    optU32Add (optU32Add x y) z = optU32Add x (optU32Add y z) := by
  cases x <;> cases y <;> cases z <;>
    (simp [optU32Add, u32add, u32Mod]; try omega)

theorem optU32Add_comm (x y : Option Nat)
    (hx : x.getD 0 < u32Mod) (hy : y.getD 0 < u32Mod) :
    optU32Add x y = optU32Add y x := by
  cases x <;> cases y <;>
    simp_all [optU32Add, u32add, u32Mod] <;> omega

theorem optU32Add_none_right (x : Option Nat) (hx : x.getD 0 < u32Mod) :
    optU32Add x none = x := by
  cases x <;> simp_all [optU32Add, u32add, u32Mod]

/-- C6: merging `Usage` values via the `Add` impl is associative,
commutative (on in-range counters), sums present fields componentwise,
treats an absent field as the additive identity — `{prompt:10} + {} =
{prompt:10}` and `{prompt:10} + {prompt:5} = {prompt:15}` — and an absent
field never overrides a present one as zero (an absent left field passes
the right field through unchanged). -/
theorem usage_merge_algebra_c6 :
    (∀ a b c : Usage, (a.add b).add c = a.add (b.add c)) ∧
    (∀ a b : Usage, a.wf → b.wf → a.add b = b.add a) ∧
    (∀ pa ca pb cb : Nat,
      Usage.add ⟨some pa, some ca⟩ ⟨some pb, some cb⟩ =
        ⟨some (u32add pa pb), some (u32add ca cb)⟩) ∧
    (∀ u : Usage, u.wf → u.add Usage.empty = u ∧ Usage.empty.add u = u) ∧
    Usage.add ⟨some 10, none⟩ ⟨none, none⟩ = ⟨some 10, none⟩ ∧
    Usage.add ⟨some 10, none⟩ ⟨some 5, none⟩ = ⟨some 15, none⟩ ∧
    (∀ u v : Usage, u.prompt_tokens = none →
      (u.add v).prompt_tokens = v.prompt_tokens) ∧
    (∀ u v : Usage, u.completion_tokens = none →
      (u.add v).completion_tokens = v.completion_tokens) := by
  refine ⟨?_, ?_, ?_, ?_, ?_, ?_, ?_, ?_⟩
  · intro a b c
    simp [Usage.add, optU32Add_assoc]
  · intro a b ha hb
    obtain ⟨ha1, ha2⟩ := ha
    obtain ⟨hb1, hb2⟩ := hb
    simp [Usage.add, optU32Add_comm _ _ ha1 hb1, optU32Add_comm _ _ ha2 hb2]
  · intro pa ca pb cb
    simp [Usage.add, optU32Add]
  · intro u hu
    obtain ⟨h1, h2⟩ := hu
    constructor
    · simp [Usage.add, Usage.empty, optU32Add_none_right _ h1, optU32Add_none_right _ h2]
    · simp [Usage.add, Usage.empty, optU32Add]
  · decide
  · decide
  · intro u v h
    simp [Usage.add, optU32Add, h]
  · intro u v h
    simp [Usage.add, optU32Add, h]

/-- Witness for C6: the commutativity and identity components applied at
concrete in-range counters. -/
theorem usage_merge_algebra_c6_witness :
    Usage.add ⟨some 3, none⟩ ⟨some 4, some 2⟩ = Usage.add ⟨some 4, some 2⟩ ⟨some 3, none⟩ ∧
    Usage.add ⟨some 7, some 1⟩ Usage.empty = ⟨some 7, some 1⟩ :=
  ⟨usage_merge_algebra_c6.2.1 _ _ (by constructor <;> decide) (by constructor <;> decide),
   (usage_merge_algebra_c6.2.2.2.1 _ (by constructor <;> decide)).1⟩

/-! ### C9: snapshot prefix stability within a streaming round -/

theorem streamRoundFold_snaps_data (pre : List Message) (bu : Usage)
    (chunks : List Response) :
    ∀ (cur : Response), cur.data.take pre.length = pre →
    ∀ i : Nat, ((streamRoundFold pre.length bu cur chunks).2[i]?).map Response.data =
      (chunks[i]?).map (fun (c : Response) => pre ++ c.data) := by
  induction chunks with
  | nil => intro cur _ i; simp [streamRoundFold]
  | cons c cs ih =>
    intro cur hcur i
    have hstep : (streamRoundStep pre.length bu cur c).data = pre ++ c.data := by
      simp [streamRoundStep, hcur]
    cases i with
    | zero => simp [streamRoundFold, hstep]
    | succ j =>
      have hcur1 : (streamRoundStep pre.length bu cur c).data.take pre.length = pre := by
        rw [hstep]; exact List.take_left pre c.data
      simpa [streamRoundFold] using ih (streamRoundStep pre.length bu cur c) hcur1 j

theorem streamRoundFold_final_take (pre : List Message) (bu : Usage)
    (chunks : List Response) :
    ∀ (cur : Response), cur.data.take pre.length = pre →
    (streamRoundFold pre.length bu cur chunks).1.data.take pre.length = pre := by
  induction chunks with
  | nil => intro cur hcur; simpa [streamRoundFold] using hcur
  | cons c cs ih =>
    intro cur hcur
    have hcur1 : (streamRoundStep pre.length bu cur c).data.take pre.length = pre := by
      simp [streamRoundStep, hcur, List.take_left]
    simpa [streamRoundFold] using ih (streamRoundStep pre.length bu cur c) hcur1

/-- C9: within one streaming round of `Agent::chat_stream` (which folds its
chunks through `streamRoundFold` with base length `current.data.length`),
every yielded snapshot consists of the round-entry prefix, byte-for-byte
unchanged, followed by the current chunk's data alone — so each snapshot
replaces, rather than appends alongside, the previous partial of the same
round — and both the round's final accumulator and the post-tool snapshot
(`fin.data ++ [toolMsg]`) still carry the unchanged prefix. -/
theorem stream_round_prefix_stable_c9 (cur : Response) (bu : Usage)
    (chunks : List Response) :
    (∀ i : Nat, ((streamRoundFold cur.data.length bu cur chunks).2[i]?).map Response.data =
      (chunks[i]?).map (fun (c : Response) => cur.data ++ c.data)) ∧
    (streamRoundFold cur.data.length bu cur chunks).1.data.take cur.data.length = cur.data ∧
    (∀ toolMsg : Message,
      ((streamRoundFold cur.data.length bu cur chunks).1.data ++ [toolMsg]).take cur.data.length =
        cur.data) := by
  have htake : cur.data.take cur.data.length = cur.data := List.take_length cur.data
  have hfin := streamRoundFold_final_take cur.data bu chunks cur htake
  refine ⟨streamRoundFold_snaps_data cur.data bu chunks cur htake, hfin, ?_⟩
  intro toolMsg
  have hlen : cur.data.length ≤ (streamRoundFold cur.data.length bu cur chunks).1.data.length := by
    have := congrArg List.length hfin
    simp only [List.length_take] at this
    omega
  rw [List.take_append_of_le_length hlen, hfin]

/-! ### C10: catalogue-failure divergence between the two loop variants -/

/-- C10: when an MCP server is configured and its `list_tools` fails,
`Agent::chat` returns `ProviderError` immediately — its transport-request
trace is empty — while `Agent::chat_stream` proceeds through the loop with
an empty tool catalogue. -/
theorem tool_catalogue_failure_divergence_c10
    (a : Agent) (srv : MCPServerModel) (e : MCPError) (messages : List Message)
    (hs : a.server = some srv) (ht : srv.listTools = .error e) :
    a.chatTraced messages =
      (.error (.providerError ("Failed to list tools from MCP server: " ++ e)), [], []) ∧
    a.chatStreamTraced messages =
      chatStreamLoop a [] a.maxIterations messages Response.emptyAgent [] [] [] := by
  constructor
  · simp [Agent.chatTraced, hs, ht]
  · simp [Agent.chatStreamTraced, hs, ht]

/-- Witness for C10 at a concrete agent whose catalogue listing fails. -/
theorem tool_catalogue_failure_divergence_c10_witness :
    agentC10.chatTraced [] =
      (.error (.providerError ("Failed to list tools from MCP server: " ++ "no transport")), [], []) ∧
    agentC10.chatStreamTraced [] =
      chatStreamLoop agentC10 [] agentC10.maxIterations [] Response.emptyAgent [] [] [] :=
  tool_catalogue_failure_divergence_c10 agentC10 srvListFail "no transport" [] rfl rfl

/-! ### C8: `Unfinished` surfaced to external callers -/

theorem anthropicStopToFinish_ne_unfinished (o : Option String) :
    anthropicStopToFinish o ≠ .unfinished := by
  unfold anthropicStopToFinish
  split <;> decide

theorem openaiFinishToReason_ne_unfinished (r : String) :
    openaiFinishToReason r ≠ .unfinished := by
  unfold openaiFinishToReason
  split <;> decide

theorem geminiFinishToReason_ne_unfinished (r : String) :
    geminiFinishToReason r ≠ .unfinished := by
  unfold geminiFinishToReason
  split <;> decide

theorem chatLoop_ok_finish (a : Agent) (tools : List ToolDef)
    (hcli : ∀ ms ts r', a.client.request ms ts = .ok r' → r'.finish ≠ .unfinished) :
    ∀ (n : Nat) (messages : List Message) (current : Response)
      (reqs : List (List Message)) (calls : List (String × Json)) (out : Response),
      (chatLoop a tools n messages current reqs calls).1 = .ok out →
      out.finish ≠ .unfinished := by
  intro n
  induction n with
  | zero =>
    intro _ _ _ _ out h
    simp [chatLoop] at h
  | succ n ih =>
    intro messages current reqs calls out h
    simp only [chatLoop] at h
    cases hreq : a.client.request messages tools with
    | error e => rw [hreq] at h; simp at h
    | ok response =>
      rw [hreq] at h
      simp only at h
      cases hpd : chatProcessData a.server response.data messages current.data false calls with
      | error e => rw [hpd] at h; simp at h
      | ok r4 =>
        rw [hpd] at h
        simp only at h
        by_cases hex : r4.2.2.1 = true
        · rw [if_pos hex] at h
          exact ih _ _ _ _ _ h
        · rw [if_neg hex] at h
          simp only [Except.ok.injEq] at h
          subst h
          simpa using hcli _ _ _ hreq

/-- C8 fails as stated: the Gemini non-streaming conversion (the one
`GeminiClient::request` applies) surfaces `Unfinished` for a response with
no candidates, and likewise for a candidate lacking a `finishReason`. -/
theorem unfinished_surfaced_c8_cex :
    (geminiConvert geminiNoCandResp).finish = FinishReason.unfinished ∧
    (geminiConvert geminiNoReasonResp).finish = FinishReason.unfinished :=
  ⟨rfl, rfl⟩

/-- C8 amended: the Anthropic and OpenAI non-streaming conversions never
yield `Unfinished`; the Gemini conversion yields a non-`Unfinished` finish
whenever the response's first candidate carries a `finishReason` (and
`Unfinished` otherwise, per the counterexample); and a successful
`Agent::chat` surfaces a non-`Unfinished` finish whenever the client's
responses do — its final finish is always copied from the last round's
response. -/
theorem unfinished_not_surfaced_c8 :
    (∀ ar : AnthropicResponseNS, (anthropicConvert ar).finish ≠ .unfinished) ∧
    (∀ orsp : OpenAiResponseNS, (openaiConvert orsp).finish ≠ .unfinished) ∧
    (∀ (gr : GeminiChunk) (cand : GeminiCandidateE) (rest : List GeminiCandidateE)
       (r : String), gr.candidates = some (cand :: rest) → cand.finishReason = some r →
       (geminiConvert gr).finish ≠ .unfinished) ∧
    (∀ (a : Agent) (msgs : List Message) (out : Response),
      (∀ ms ts r', a.client.request ms ts = .ok r' → r'.finish ≠ .unfinished) →
      a.chat msgs = .ok out → out.finish ≠ .unfinished) := by
  refine ⟨?_, ?_, ?_, ?_⟩
  · intro ar
    simpa [anthropicConvert] using anthropicStopToFinish_ne_unfinished ar.stopReason
  · intro orsp
    obtain ⟨choices, usage⟩ := orsp
    cases choices with
    | nil => simp [openaiConvert]
    | cons choice rest =>
      cases hfr : choice.finishReason with
      | none => simp [openaiConvert, hfr]
      | some r =>
        simpa [openaiConvert, hfr] using openaiFinishToReason_ne_unfinished r
  · intro gr cand rest r hc hf
    obtain ⟨cands, um⟩ := gr
    simp only at hc
    subst hc
    simpa [geminiConvert, hf] using geminiFinishToReason_ne_unfinished r
  · intro a msgs out hcli hok
    unfold Agent.chat Agent.chatTraced at hok
    cases hs : a.server with
    | none =>
      rw [hs] at hok
      simp only at hok
      exact chatLoop_ok_finish a [] hcli _ _ _ _ _ _ hok
    | some srv =>
      rw [hs] at hok
      simp only at hok
      cases hlt : srv.listTools with
      | ok tl =>
        rw [hlt] at hok
        simp only at hok
        exact chatLoop_ok_finish a _ hcli _ _ _ _ _ _ hok
      | error e =>
        rw [hlt] at hok
        simp at hok

/-- Witness for C8 at concrete inputs: a stop-finishing Gemini response and
a concrete agent whose transport always finishes with `Stop`. -/
theorem unfinished_not_surfaced_c8_witness :
    (geminiConvert { candidates := some [{ content := none, finishReason := some "STOP" }],
                     usageMetadata := none }).finish ≠ .unfinished ∧
    ({ data := [Message.assistant [.text "done" true]], usage := Usage.empty,
       finish := .stop } : Response).finish ≠ .unfinished :=
  ⟨unfinished_not_surfaced_c8.2.2.1 _ _ [] "STOP" rfl rfl,
   unfinished_not_surfaced_c8.2.2.2 agentC8 [] _
     (fun _ _ r' h => by cases h; decide) rfl⟩

/-! ### C7: malformed tool-call argument JSON at close -/

theorem openaiRunSnaps_aux_length (evs : List OpenAiChunk) :
    ∀ (st : OpenAiState) (acc : List Response),
      ((evs.foldl (fun (acc : OpenAiState × List Response) ch =>
          let st := openaiStep acc.1 ch
          (st, acc.2 ++ [st.response])) (st, acc)).2).length = acc.length + evs.length := by
  induction evs with
  | nil => intro st acc; simp
  | cons c cs ih =>
    intro st acc
    simp only [List.foldl_cons]
    rw [ih]
    simp
    omega

/-- C7 fails as stated on the Anthropic decoder: when the accumulated
argument text `{bad` does not parse at `content_block_stop`, the call's
`arguments` are left at their initial `Null` — not set to the empty JSON
object — while the unit is still closed and the stream completes without
error (the run returns a final snapshot). -/
theorem call_args_fallback_c7_cex :
    anthropicRunParts c7CexEvents =
      some [Part.functionCall (some "toolu_1") "get" Json.null none true] ∧
    Json.isEmptyObj Json.null = false ∧
    Json.parse "\x7bbad" = none :=
  ⟨rfl, rfl, rfl⟩

/-- C7 amended: when a `FunctionCall`'s accumulated argument text fails to
parse at close, the OpenAI decoder sets `arguments` to the empty JSON
object, while the Anthropic decoder leaves `arguments` unchanged (its
initial `Null` unless a previous parse succeeded); in both decoders the
unit is still marked finished and the failure is never turned into a
stream error — every OpenAI chunk yields exactly one snapshot, and an
Anthropic `content_block_stop` always succeeds. -/
theorem call_args_fallback_c7 :
    (∀ (i : Option String) (n : String) (s : String) (g : Option String) (f : Bool),
      Json.parse s = none →
      openaiFinishClose (.functionCall i n (.str s) g f) =
        .functionCall i n (.obj []) g true) ∧
    (∀ (p : Part) (b : Option (String × String × String)),
      (anthropicCloseAtStop p b).finished = true) ∧
    (∀ (i : Option String) (n : String) (args : Json) (g : Option String) (f : Bool)
       (bid bname s : String),
      Json.parse s = none →
      anthropicCloseAtStop (.functionCall i n args g f) (some (bid, bname, s)) =
        .functionCall i n args g true) ∧
    (∀ evs : List OpenAiChunk, (openaiRunSnaps evs).length = evs.length) ∧
    (∀ (st : AnthropicState) (idx : Nat),
      (anthropicStep st (.contentBlockStop idx)).isOk = true) := by
  refine ⟨?_, ?_, ?_, ?_, ?_⟩
  · intro i n s g f h
    simp [openaiFinishClose, h]
  · intro p b
    cases p with
    | functionCall i n a g f =>
      rcases b with _ | ⟨bid, bname, s⟩
      · rfl
      · cases hp : Json.parse s <;> simp [anthropicCloseAtStop, hp, Part.finished]
    | text c f => rfl
    | reasoning c s g f => rfl
    | functionResponse i n r ps f => rfl
    | media mt d m u f => rfl
  · intro i n args g f bid bname s h
    simp [anthropicCloseAtStop, h]
  · intro evs
    simpa [openaiRunSnaps] using openaiRunSnaps_aux_length evs openaiInit []
  · intro st idx
    simp only [anthropicStep]
    split <;> rfl

/-- Witness for C7 at the concrete unparseable buffer text `{bad`. -/
theorem call_args_fallback_c7_witness :
    openaiFinishClose (.functionCall none "f" (.str "\x7bbad") none false) =
      .functionCall none "f" (.obj []) none true ∧
    anthropicCloseAtStop (.functionCall (some "i") "f" Json.null none false)
      (some ("i", "f", "\x7bbad")) =
      .functionCall (some "i") "f" Json.null none true :=
  ⟨call_args_fallback_c7.1 none "f" "\x7bbad" none false rfl,
   call_args_fallback_c7.2.2.1 (some "i") "f" Json.null none false "i" "f" "\x7bbad" rfl⟩

/-! ### C1: closure of all open units on a stop/finish signal -/

theorem forceFinish_finished (p : Part) : (Part.forceFinish p).finished = true := by
  cases p <;> rfl

theorem openaiFinishClose_finished (p : Part) : (openaiFinishClose p).finished = true := by
  cases p with
  | functionCall i n a g f =>
    cases a with
    | str s =>
      cases hp : Json.parse s <;> simp [openaiFinishClose, hp, Part.finished]
    | null => rfl
    | bool b => rfl
    | num n' => rfl
    | arr xs => rfl
    | obj fs => rfl
  | text c f => rfl
  | reasoning c s g f => rfl
  | functionResponse i n r ps f => rfl
  | media mt d m u f => rfl

theorem anthropicCloseAtStop_finished (p : Part) (b : Option (String × String × String)) :
    (anthropicCloseAtStop p b).finished = true := by
  cases p with
  | functionCall i n a g f =>
    rcases b with _ | ⟨bid, bname, s⟩
    · rfl
    · cases hp : Json.parse s <;> simp [anthropicCloseAtStop, hp, Part.finished]
  | text c f => rfl
  | reasoning c s g f => rfl
  | functionResponse i n r ps f => rfl
  | media mt d m u f => rfl

theorem withParts_parts (m : Message) (ps : List Part) : (m.withParts ps).parts = ps := by
  cases m <;> rfl

theorem setHeadParts_singleton (r : Response) (m : Message) (ps' : List Part)
    (h : r.data = [m]) : (r.setHeadParts ps').data = [m.withParts ps'] := by
  simp [Response.setHeadParts, h]

theorem headParts_singleton (r : Response) (m : Message) (h : r.data = [m]) :
    r.headParts = m.parts := by
  simp [Response.headParts, h]

/-- A response whose single message's parts have all been passed through a
closure that forces `finished` is `allFinished`. -/
theorem allFinished_of_map_close (r : Response) (m : Message) (cl : Part → Part)
    (hcl : ∀ p, (cl p).finished = true)
    (h : r.data = [m.withParts (m.parts.map cl)]) : r.allFinished := by
  intro msg hmsg p hp
  rw [h, List.mem_singleton] at hmsg
  subst hmsg
  rw [withParts_parts] at hp
  obtain ⟨q, _, hq⟩ := List.mem_map.mp hp
  rw [← hq]
  exact hcl q

theorem geminiStep_singleton (st : Response × Option GPartType) (chunk : GeminiChunk)
    (h : ∃ m, st.1.data = [m]) : ∃ m, (geminiStep st chunk).1.data = [m] := by
  obtain ⟨m, hm⟩ := h
  obtain ⟨resp, lastT⟩ := st
  obtain ⟨cands, um⟩ := chunk
  simp only at hm
  unfold geminiStep
  rcases um with _ | u <;>
    rcases cands with _ | ⟨_ | ⟨cand, rest⟩⟩ <;>
    simp only
  case none.none => exact ⟨m, hm⟩
  case none.some.nil => exact ⟨m, hm⟩
  case none.some.cons =>
    obtain ⟨content, freason⟩ := cand
    rcases content with _ | gparts <;> rcases freason with _ | fr <;> simp only
    · exact ⟨m, hm⟩
    · exact ⟨_, setHeadParts_singleton _ m _ hm⟩
    · exact ⟨_, setHeadParts_singleton _ m _ hm⟩
    · exact ⟨_, setHeadParts_singleton _ _ _ (setHeadParts_singleton _ m _ hm)⟩
  case some.none => exact ⟨m, hm⟩
  case some.some.nil => exact ⟨m, hm⟩
  case some.some.cons =>
    obtain ⟨content, freason⟩ := cand
    rcases content with _ | gparts <;> rcases freason with _ | fr <;> simp only
    · exact ⟨m, hm⟩
    · exact ⟨_, setHeadParts_singleton _ m _ hm⟩
    · exact ⟨_, setHeadParts_singleton _ m _ hm⟩
    · exact ⟨_, setHeadParts_singleton _ _ _ (setHeadParts_singleton _ m _ hm)⟩

theorem geminiFold_singleton (events : List GeminiChunk) :
    ∀ (st : Response × Option GPartType), (∃ m, st.1.data = [m]) →
      ∃ m, (events.foldl geminiStep st).1.data = [m] := by
  induction events with
  | nil => intro st h; simpa using h
  | cons c cs ih =>
    intro st h
    simpa using ih (geminiStep st c) (geminiStep_singleton st c h)

/-- The "close every unit, record the finish reason" update applied to a
single-message response yields an `allFinished` response. -/
theorem closeAll_allFinished (r2 : Response) (cl : Part → Part)
    (hcl : ∀ p, (cl p).finished = true) (fr : FinishReason)
    (h : ∃ m, r2.data = [m]) :
    ({ r2.setHeadParts (r2.headParts.map cl) with
       finish := fr } : Response).allFinished := by
  obtain ⟨m, hm⟩ := h
  refine allFinished_of_map_close _ m cl hcl ?_
  show (r2.setHeadParts (r2.headParts.map cl)).data = _
  rw [headParts_singleton _ m hm]
  exact setHeadParts_singleton _ m _ hm

theorem geminiStep_finish_allFinished (st : Response × Option GPartType)
    (chunk : GeminiChunk) (cand : GeminiCandidateE) (rest : List GeminiCandidateE)
    (fr : String) (hsing : ∃ m, st.1.data = [m])
    (hc : chunk.candidates = some (cand :: rest)) (hf : cand.finishReason = some fr) :
    (geminiStep st chunk).1.allFinished := by
  obtain ⟨m, hm⟩ := hsing
  obtain ⟨resp, lastT⟩ := st
  obtain ⟨cands, um⟩ := chunk
  obtain ⟨content, freason⟩ := cand
  simp only at hm hc hf
  subst hc
  subst hf
  unfold geminiStep
  rcases um with _ | u <;> rcases content with _ | gparts <;> simp only <;>
    first
      | exact closeAll_allFinished _ _ forceFinish_finished _ ⟨m, hm⟩
      | exact closeAll_allFinished _ _ forceFinish_finished _
          ⟨_, setHeadParts_singleton _ m _ hm⟩

theorem openaiChoiceStep_singleton (st : OpenAiState) (choice : OpenAiStreamChoiceE)
    (h : ∃ m, st.response.data = [m]) :
    ∃ m, (openaiChoiceStep st choice).response.data = [m] := by
  obtain ⟨m, hm⟩ := h
  obtain ⟨delta, freason⟩ := choice
  unfold openaiChoiceStep
  rcases delta with _ | d <;> rcases freason with _ | fr <;> simp only <;>
    first
      | exact ⟨m, hm⟩
      | exact ⟨_, setHeadParts_singleton _ m _ hm⟩
      | exact ⟨_, setHeadParts_singleton _ _ _ (setHeadParts_singleton _ m _ hm)⟩

theorem openaiChoicesFold_singleton (choices : List OpenAiStreamChoiceE) :
    ∀ (st : OpenAiState), (∃ m, st.response.data = [m]) →
      ∃ m, (choices.foldl openaiChoiceStep st).response.data = [m] := by
  induction choices with
  | nil => intro st h; simpa using h
  | cons c cs ih =>
    intro st h
    simpa using ih _ (openaiChoiceStep_singleton st c h)

theorem openaiStep_singleton (st : OpenAiState) (chunk : OpenAiChunk)
    (h : ∃ m, st.response.data = [m]) :
    ∃ m, (openaiStep st chunk).response.data = [m] := by
  obtain ⟨choices, usage⟩ := chunk
  unfold openaiStep
  rcases usage with _ | u <;> simp only <;>
    exact openaiChoicesFold_singleton _ _ h

theorem openaiFold_singleton (events : List OpenAiChunk) :
    ∀ (st : OpenAiState), (∃ m, st.response.data = [m]) →
      ∃ m, (events.foldl openaiStep st).response.data = [m] := by
  induction events with
  | nil => intro st h; simpa using h
  | cons c cs ih =>
    intro st h
    simpa using ih _ (openaiStep_singleton st c h)

theorem openaiChoiceStep_finish_allFinished (st : OpenAiState)
    (choice : OpenAiStreamChoiceE) (fr : String) (hf : choice.finishReason = some fr)
    (h : ∃ m, st.response.data = [m]) :
    (openaiChoiceStep st choice).response.allFinished := by
  obtain ⟨m, hm⟩ := h
  obtain ⟨delta, freason⟩ := choice
  simp only at hf
  subst hf
  unfold openaiChoiceStep
  rcases delta with _ | d <;> simp only <;>
    first
      | exact closeAll_allFinished _ _ openaiFinishClose_finished _ ⟨m, hm⟩
      | exact closeAll_allFinished _ _ openaiFinishClose_finished _
          ⟨_, setHeadParts_singleton _ m _ hm⟩

theorem headParts_set_of_cons (r : Response) (m : Message) (rest : List Message)
    (ps : List Part) (h : r.data = m :: rest) : (r.setHeadParts ps).headParts = ps := by
  simp [Response.setHeadParts, Response.headParts, h, withParts_parts]

theorem data_cons_of_headParts_get (r : Response) (idx : Nat) (p : Part)
    (h : (r.headParts).get? idx = some p) : ∃ m rest, r.data = m :: rest := by
  cases hd : r.data with
  | nil => simp [Response.headParts, hd] at h
  | cons m rest => exact ⟨m, rest, rfl⟩

/-- C1 fails as stated on the Anthropic decoder: after a stream ending in
the stop signal (`message_delta` with stop reason `end_turn` followed by
`message_stop`), the final snapshot still holds the text unit with
`finished=false`, even though the stop reason itself was applied (the final
finish is `Stop`). -/
theorem decoder_close_on_stop_c1_cex :
    anthropicRunParts c1CexEvents = some [Part.text "partial" false] ∧
    (Part.text "partial" false).finished = false ∧
    (match anthropicRun c1CexEvents with
     | .ok st => st.response.finish
     | .error _ => .unfinished) = FinishReason.stop :=
  ⟨rfl, rfl, rfl⟩

/-- C1 amended: the Gemini and OpenAI decoders do force-close every unit on
a finish signal — for any event sequence ending in a chunk whose first
candidate carries a `finishReason` (Gemini), or whose last choice carries a
`finish_reason` (OpenAI), every content unit of the final snapshot has
`finished=true`. The Anthropic decoder closes units only through
`content_block_stop`: such a stop marks exactly the indexed unit finished,
while the `message_delta`/`message_stop` stop signal closes nothing (see
the counterexample). -/
theorem decoder_close_on_stop_c1 :
    (∀ (evs : List GeminiChunk) (chunk : GeminiChunk) (cand : GeminiCandidateE)
       (rest : List GeminiCandidateE) (fr : String),
      chunk.candidates = some (cand :: rest) → cand.finishReason = some fr →
      (geminiRun (evs ++ [chunk])).1.allFinished) ∧
    (∀ (evs : List OpenAiChunk) (chunk : OpenAiChunk) (cs : List OpenAiStreamChoiceE)
       (lc : OpenAiStreamChoiceE) (fr : String),
      chunk.choices = cs ++ [lc] → lc.finishReason = some fr →
      (openaiRun (evs ++ [chunk])).response.allFinished) ∧
    (∀ (st : AnthropicState) (idx : Nat) (p : Part) (st' : AnthropicState),
      (st.response.headParts).get? idx = some p →
      anthropicStep st (.contentBlockStop idx) = .ok st' →
      ∃ q, (st'.response.headParts).get? idx = some q ∧ q.finished = true) := by
  refine ⟨?_, ?_, ?_⟩
  · intro evs chunk cand rest fr hc hf
    have hsing : ∃ m, (evs.foldl geminiStep geminiInit).1.data = [m] :=
      geminiFold_singleton evs geminiInit ⟨Message.assistant [], rfl⟩
    rw [geminiRun, List.foldl_append]
    exact geminiStep_finish_allFinished _ chunk cand rest fr hsing hc hf
  · intro evs chunk cs lc fr hc hf
    have hsing : ∃ m, (evs.foldl openaiStep openaiInit).response.data = [m] :=
      openaiFold_singleton evs openaiInit ⟨Message.assistant [], rfl⟩
    rw [openaiRun, List.foldl_append]
    obtain ⟨choices, usage⟩ := chunk
    simp only at hc
    subst hc
    unfold openaiStep
    rcases usage with _ | u <;> simp only [List.foldl_append, List.foldl_cons, List.foldl_nil] <;>
      exact openaiChoiceStep_finish_allFinished _ lc fr hf
        (openaiChoicesFold_singleton cs _ hsing)
  · intro st idx p st' h hstep
    obtain ⟨m, rest, hd⟩ := data_cons_of_headParts_get _ _ _ h
    have h2 : (st.response.headParts)[idx]? = some p := by
      rw [← List.get?_eq_getElem?]
      exact h
    obtain ⟨hlt, _⟩ := List.getElem?_eq_some_iff.mp h2
    simp only [anthropicStep, h, Except.ok.injEq] at hstep
    subst hstep
    refine ⟨anthropicCloseAtStop p (bufLookup idx st.toolBuffers), ?_, anthropicCloseAtStop_finished p _⟩
    rw [headParts_set_of_cons _ m rest _ hd]
    rw [List.get?_eq_getElem?]
    simp [List.getElem?_set_self', hlt]

/-- Witness for C1 at concrete one-chunk streams ending in a finish
signal, and a concrete Anthropic stop step. -/
theorem decoder_close_on_stop_c1_witness :
    (geminiRun [{ candidates := some [{ content := some [.text "hi" none],
                                        finishReason := some "STOP" }],
                  usageMetadata := none }]).1.allFinished ∧
    (openaiRun [{ choices := [{ delta := some ⟨some "hi", none⟩, finishReason := some "stop" }],
                  usage := none }]).response.allFinished ∧
    (∃ q, ((anthropicInit.response.setHeadParts [Part.text "hi" false]).headParts.set 0
        (anthropicCloseAtStop (Part.text "hi" false) (bufLookup 0 []))).get? 0 = some q ∧
      q.finished = true) := by
  refine ⟨?_, ?_, ?_⟩
  · exact decoder_close_on_stop_c1.1 [] _ _ [] "STOP" rfl rfl
  · exact decoder_close_on_stop_c1.2.1 [] _ [] _ "stop" rfl rfl
  · obtain ⟨q, hq, hfin⟩ := decoder_close_on_stop_c1.2.2
      { response := anthropicInit.response.setHeadParts [Part.text "hi" false], toolBuffers := [] }
      0 (Part.text "hi" false) _ rfl rfl
    exact ⟨q, hq, hfin⟩

/-! ### Characterization of the agent loops' tool processing -/

theorem chatProcessParts_ok (srv : MCPServerModel) :
    ∀ (parts : List Part) (ms out : List Message) (ex : Bool) (calls : List (String × Json)),
      chatProcessParts (some srv) parts ms out ex calls =
        .ok (ms ++ partsRespMsgs srv parts,
             out ++ partsRespMsgs srv parts,
             ex || parts.any Part.isCall,
             calls ++ parts.filterMap Part.callOf) := by
  intro parts
  induction parts with
  | nil =>
    intro ms out ex calls
    simp [chatProcessParts, partsRespMsgs]
  | cons p rest ih =>
    intro ms out ex calls
    cases p with
    | functionCall id n a g f =>
      simp only [chatProcessParts]
      rw [ih]
      simp [partsRespMsgs, Part.isCall, Part.callOf, List.filterMap_cons]
    | text c f =>
      simp only [chatProcessParts]
      rw [ih]
      simp [partsRespMsgs, Part.isCall, Part.callOf, List.filterMap_cons]
    | reasoning c s g f =>
      simp only [chatProcessParts]
      rw [ih]
      simp [partsRespMsgs, Part.isCall, Part.callOf, List.filterMap_cons]
    | functionResponse i n r ps f =>
      simp only [chatProcessParts]
      rw [ih]
      simp [partsRespMsgs, Part.isCall, Part.callOf, List.filterMap_cons]
    | media mt d m u f =>
      simp only [chatProcessParts]
      rw [ih]
      simp [partsRespMsgs, Part.isCall, Part.callOf, List.filterMap_cons]

theorem chatProcessData_ok (srv : MCPServerModel) :
    ∀ (data ms out : List Message) (ex : Bool) (calls : List (String × Json)),
      chatProcessData (some srv) data ms out ex calls =
        .ok (ms ++ dataRespMsgs srv data,
             out ++ dataRespMsgs srv data,
             ex || dataHasCall data,
             calls ++ dataCalls data) := by
  intro data
  induction data with
  | nil =>
    intro ms out ex calls
    simp [chatProcessData, dataRespMsgs, dataHasCall, dataCalls]
  | cons msg rest ih =>
    intro ms out ex calls
    simp only [chatProcessData, chatProcessParts_ok srv]
    rw [ih]
    simp [dataRespMsgs, dataHasCall, dataCalls, List.any_cons, Bool.or_assoc]

theorem streamCollectTools_ok (srv : MCPServerModel) :
    ∀ (parts resps : List Part) (ex : Bool) (calls : List (String × Json)),
      streamCollectTools (some srv) parts resps ex calls =
        .ok (resps ++ streamRespParts srv parts,
             ex || parts.any Part.isFinishedCall,
             calls ++ parts.filterMap Part.finishedCallOf) := by
  intro parts
  induction parts with
  | nil =>
    intro resps ex calls
    simp [streamCollectTools, streamRespParts]
  | cons p rest ih =>
    intro resps ex calls
    cases p with
    | functionCall id n a g f =>
      cases f with
      | true =>
        simp only [streamCollectTools]
        rw [ih]
        simp [streamRespParts, Part.isFinishedCall, Part.finishedCallOf, List.filterMap_cons]
      | false =>
        simp only [streamCollectTools]
        rw [ih]
        simp [streamRespParts, Part.isFinishedCall, Part.finishedCallOf, List.filterMap_cons]
    | text c f =>
      simp only [streamCollectTools]
      rw [ih]
      simp [streamRespParts, Part.isFinishedCall, Part.finishedCallOf, List.filterMap_cons]
    | reasoning c s g f =>
      simp only [streamCollectTools]
      rw [ih]
      simp [streamRespParts, Part.isFinishedCall, Part.finishedCallOf, List.filterMap_cons]
    | functionResponse i n r ps f =>
      simp only [streamCollectTools]
      rw [ih]
      simp [streamRespParts, Part.isFinishedCall, Part.finishedCallOf, List.filterMap_cons]
    | media mt d m u f =>
      simp only [streamCollectTools]
      rw [ih]
      simp [streamRespParts, Part.isFinishedCall, Part.finishedCallOf, List.filterMap_cons]

/-! ### C4: which `FunctionCall` units are actionable -/

/-- C4 fails as stated: `Agent::chat` executes a `FunctionCall` unit whose
`finished` flag is `false` — with a scripted round returning exactly one
unfinished call, the chat loop's `call_tool` trace is nonempty. -/
theorem actionable_calls_c4_cex :
    (agentC4.chatTraced [Message.user [.text "q" true]]).2.2 = [("f", Json.null)] ∧
    Part.finished (.functionCall (some "call_1") "f" .null none false) = false :=
  ⟨rfl, rfl⟩

/-- C4 amended: in `Agent::chat_stream` the round's tool execution fires
exactly on the `finished=true` `FunctionCall` units of the scanned parts
(an unfinished call is not actionable), but `Agent::chat` executes every
`FunctionCall` unit of every round message regardless of its `finished`
flag. -/
theorem actionable_calls_c4 :
    (∀ (srv : MCPServerModel) (parts : List Part) (ms out : List Message) (ex : Bool)
       (calls : List (String × Json)),
      (chatProcessParts (some srv) parts ms out ex calls).map (fun r => r.2.2.2) =
        .ok (calls ++ parts.filterMap Part.callOf)) ∧
    (∀ (srv : MCPServerModel) (parts resps : List Part) (ex : Bool)
       (calls : List (String × Json)),
      (streamCollectTools (some srv) parts resps ex calls).map (fun r => r.2.2) =
        .ok (calls ++ parts.filterMap Part.finishedCallOf)) ∧
    (∀ (id : Option String) (n : String) (a : Json) (g : Option String),
      Part.finishedCallOf (.functionCall id n a g false) = none ∧
      Part.callOf (.functionCall id n a g false) = some (n, a) ∧
      Part.finishedCallOf (.functionCall id n a g true) = some (n, a)) := by
  refine ⟨?_, ?_, ?_⟩
  · intro srv parts ms out ex calls
    rw [chatProcessParts_ok srv]
    rfl
  · intro srv parts resps ex calls
    rw [streamCollectTools_ok srv]
    rfl
  · intro id n a g
    exact ⟨rfl, rfl, rfl⟩

/-! ### C5: bundling of synthesized tool responses -/

/-- C5 fails as stated: with two calls executed in one `Agent::chat` round,
two separate single-part `User` messages are appended, not one `User`
message bundling both responses. -/
theorem bundled_responses_c5_cex :
    (agentC5.chat [Message.user [.text "q" true]]).map
        (fun r => (r.data.filter isUserMsg).length) = .ok 2 ∧
    agentC5.chat [Message.user [.text "q" true]] = .ok
      { data := [Message.assistant [.functionCall (some "call_1") "f" .null none true,
                                    .functionCall (some "call_2") "g" .null none true],
                 Message.user [.functionResponse (some "call_1") "f" (Json.obj []) [] true],
                 Message.user [.functionResponse (some "call_2") "g" (Json.obj []) [] true],
                 Message.assistant [.text "done" true]],
        usage := Usage.empty, finish := .stop } :=
  ⟨rfl, rfl⟩

/-- C5 amended: `Agent::chat_stream` bundles all synthesized responses of a
round into the single collected list, in source call order; `Agent::chat`
instead appends one single-part `User` message per executed call, in source
call order. -/
theorem bundled_responses_c5 :
    (∀ (srv : MCPServerModel) (parts : List Part),
      (partsRespMsgs srv parts).length = (parts.filter Part.isCall).length) ∧
    (∀ (srv : MCPServerModel) (parts : List Part) (m : Message),
      m ∈ partsRespMsgs srv parts → ∃ p, m = Message.user [p]) ∧
    (∀ (srv : MCPServerModel) (parts resps : List Part) (ex : Bool)
       (calls : List (String × Json)),
      (streamCollectTools (some srv) parts resps ex calls).map (fun r => r.1) =
        .ok (resps ++ streamRespParts srv parts)) ∧
    (∀ (srv : MCPServerModel) (parts : List Part),
      (streamRespParts srv parts).length = (parts.filter Part.isFinishedCall).length) := by
  refine ⟨?_, ?_, ?_, ?_⟩
  · intro srv parts
    induction parts with
    | nil => rfl
    | cons p rest ih =>
      cases p <;> simp [partsRespMsgs, Part.isCall, List.filterMap_cons, List.filter_cons] <;>
        simpa [partsRespMsgs] using ih
  · intro srv parts m hm
    induction parts with
    | nil => simp [partsRespMsgs] at hm
    | cons p rest ih =>
      cases p with
      | functionCall id n a g f =>
        simp only [partsRespMsgs, List.filterMap_cons] at hm
        rcases List.mem_cons.mp hm with h | h
        · exact ⟨runToolCall srv id n a, h⟩
        · exact ih h
      | text c f => exact ih (by simpa [partsRespMsgs, List.filterMap_cons] using hm)
      | reasoning c s g f => exact ih (by simpa [partsRespMsgs, List.filterMap_cons] using hm)
      | functionResponse i n r ps f =>
        exact ih (by simpa [partsRespMsgs, List.filterMap_cons] using hm)
      | media mt d mi u f => exact ih (by simpa [partsRespMsgs, List.filterMap_cons] using hm)
  · intro srv parts resps ex calls
    rw [streamCollectTools_ok srv]
    rfl
  · intro srv parts
    induction parts with
    | nil => rfl
    | cons p rest ih =>
      cases p with
      | functionCall id n a g f =>
        cases f <;>
          simp [streamRespParts, Part.isFinishedCall, List.filterMap_cons, List.filter_cons] <;>
          simpa [streamRespParts] using ih
      | text c f =>
        simp [streamRespParts, Part.isFinishedCall, List.filterMap_cons, List.filter_cons]
        simpa [streamRespParts] using ih
      | reasoning c s g f =>
        simp [streamRespParts, Part.isFinishedCall, List.filterMap_cons, List.filter_cons]
        simpa [streamRespParts] using ih
      | functionResponse i n r ps f =>
        simp [streamRespParts, Part.isFinishedCall, List.filterMap_cons, List.filter_cons]
        simpa [streamRespParts] using ih
      | media mt d mi u f =>
        simp [streamRespParts, Part.isFinishedCall, List.filterMap_cons, List.filter_cons]
        simpa [streamRespParts] using ih

/-- Witness for C5: the membership component applied at a concrete
one-call parts list. -/
theorem bundled_responses_c5_witness :
    ∃ p, Message.user [Part.functionResponse (some "call_1") "f" (Json.obj []) [] true] =
      Message.user [p] := by
  refine bundled_responses_c5.2.1 srvOk
    [Part.functionCall (some "call_1") "f" .null none true] _ ?_
  have h : partsRespMsgs srvOk [Part.functionCall (some "call_1") "f" .null none true] =
      [Message.user [Part.functionResponse (some "call_1") "f" (Json.obj []) [] true]] := rfl
  rw [h]
  exact List.mem_singleton.mpr rfl

/-! ### C2: iteration-limit termination when every round issues a call -/

theorem chatLoop_always_call (a : Agent) (srv : MCPServerModel) (tools : List ToolDef)
    (hs : a.server = some srv)
    (hcli : ∀ ms, ∃ r, a.client.request ms tools = .ok r ∧ dataHasCall r.data = true) :
    ∀ (n : Nat) (messages : List Message) (current : Response)
      (reqs : List (List Message)) (calls : List (String × Json)),
      (chatLoop a tools n messages current reqs calls).1 =
        .error (.config "Max iterations reached in agent loop") ∧
      (chatLoop a tools n messages current reqs calls).2.1.length = reqs.length + n := by
  intro n
  induction n with
  | zero =>
    intro ms current reqs calls
    exact ⟨rfl, by simp [chatLoop]⟩
  | succ n ih =>
    intro ms current reqs calls
    obtain ⟨r, hr, hcall⟩ := hcli ms
    simp only [chatLoop, hr, hs, chatProcessData_ok srv, hcall, Bool.or_true, if_pos]
    refine ⟨(ih _ _ _ _).1, ?_⟩
    rw [(ih _ _ _ _).2]
    simp
    omega

theorem streamRoundFold_final_suffix (baseLen : Nat) (bu : Usage) :
    ∀ (chunks : List Response) (cur : Response) (c : Response),
      chunks.getLast? = some c →
      ∃ pre, (streamRoundFold baseLen bu cur chunks).1.data = pre ++ c.data := by
  intro chunks
  induction chunks with
  | nil => intro cur c h; simp at h
  | cons c0 cs ih =>
    intro cur c h
    cases cs with
    | nil =>
      simp at h
      subst h
      refine ⟨cur.data.take baseLen, ?_⟩
      simp [streamRoundFold, streamRoundStep]
    | cons c1 cs' =>
      have h' : (c1 :: cs').getLast? = some c := by simpa using h
      simpa [streamRoundFold] using ih (streamRoundStep baseLen bu cur c0) c h'

theorem chatStreamLoop_always_call (a : Agent) (srv : MCPServerModel) (tools : List ToolDef)
    (hs : a.server = some srv)
    (hcli : ∀ ms, ∃ sm, a.client.requestStream ms tools = .ok sm ∧ sm.fail = none ∧
      sm.lastHasFinishedCall = true) :
    ∀ (n : Nat) (messages : List Message) (current : Response) (snaps : List Response)
      (reqs : List (List Message)) (calls : List (String × Json)),
      (chatStreamLoop a tools n messages current snaps reqs calls).2.1 =
        some (.config "Max iterations reached in agent loop") ∧
      (chatStreamLoop a tools n messages current snaps reqs calls).2.2.1.length =
        reqs.length + n := by
  intro n
  induction n with
  | zero =>
    intro ms current snaps reqs calls
    exact ⟨rfl, by simp [chatStreamLoop]⟩
  | succ n ih =>
    intro ms current snaps reqs calls
    obtain ⟨sm, hsm, hfail, hlast⟩ := hcli ms
    cases hl : sm.chunks.getLast? with
    | none => simp [StreamModel.lastHasFinishedCall, hl] at hlast
    | some c =>
      cases hm : c.data.getLast? with
      | none => simp [StreamModel.lastHasFinishedCall, hl, hm] at hlast
      | some m =>
        have hany : m.parts.any Part.isFinishedCall = true := by
          simpa [StreamModel.lastHasFinishedCall, hl, hm] using hlast
        obtain ⟨pre, hpre⟩ :=
          streamRoundFold_final_suffix current.data.length current.usage sm.chunks current c hl
        have hdlast :
            (streamRoundFold current.data.length current.usage current sm.chunks).1.data.getLast? =
              some m := by
          rw [hpre, List.getLast?_append, hm]
          rfl
        simp only [chatStreamLoop, hsm, hfail, hdlast, hs, streamCollectTools_ok srv,
          hany, Bool.or_true, if_pos]
        refine ⟨(ih _ _ _ _ _).1, ?_⟩
        rw [(ih _ _ _ _ _).2]
        simp
        omega

/-- C2 fails as stated for `Agent::chat_stream`: with `max_iterations = 3`
and a client whose every streamed round returns a response containing a
`FunctionCall` part — one that is still `finished=false` in the final
snapshot's last message — the stream loop finds no actionable call,
terminates after exactly one round, and ends without any error (in
particular without the iteration-limit configuration error). -/
theorem iteration_limit_c2_cex :
    dataHasCall respCallUnfin.data = true ∧
    agentC2s.maxIterations = 3 ∧
    (agentC2s.chatStreamTraced []).2.1 = none ∧
    (agentC2s.chatStreamTraced []).2.2.1.length = 1 ∧
    (agentC2s.chatStreamTraced []).2.2.2 = [] :=
  ⟨rfl, rfl, rfl, rfl, rfl⟩

/-- C2 amended: when the agent has an MCP server and the client's every
round produces a response carrying a `FunctionCall` (for `Agent::chat`),
respectively a stream whose final snapshot's last message carries a
`FunctionCall` with `finished=true` (for `Agent::chat_stream` — a round
whose final snapshot holds no finished call in its last message instead
ends the stream loop successfully, per the counterexample), both loops run
exactly `max_iterations` rounds (one transport request per round) and then
terminate with the iteration-limit configuration error; no success value
is produced and the accumulated output is discarded. -/
theorem iteration_limit_c2 (a : Agent) (srv : MCPServerModel)
    (tl : List (Served ToolDef)) (messages : List Message)
    (hs : a.server = some srv) (hlt : srv.listTools = .ok tl) (_hn : 1 ≤ a.maxIterations)
    (hreq : ∀ ms, ∃ r, a.client.request ms (tl.map (fun s => s.value)) = .ok r ∧
      dataHasCall r.data = true)
    (hstream : ∀ ms, ∃ sm, a.client.requestStream ms (tl.map (fun s => s.value)) = .ok sm ∧
      sm.fail = none ∧ sm.lastHasFinishedCall = true) :
    ((a.chatTraced messages).1 = .error (.config "Max iterations reached in agent loop") ∧
     (a.chatTraced messages).2.1.length = a.maxIterations) ∧
    ((a.chatStreamTraced messages).2.1 =
        some (.config "Max iterations reached in agent loop") ∧
     (a.chatStreamTraced messages).2.2.1.length = a.maxIterations) := by
  have h1 := chatLoop_always_call a srv _ hs hreq a.maxIterations messages
    Response.emptyAgent [] []
  have h2 := chatStreamLoop_always_call a srv _ hs hstream a.maxIterations messages
    Response.emptyAgent [] [] []
  constructor
  · constructor
    · simpa [Agent.chatTraced, hs, hlt] using h1.1
    · have := h1.2
      simp at this
      simpa [Agent.chatTraced, hs, hlt] using this
  · constructor
    · simpa [Agent.chatStreamTraced, hs, hlt] using h2.1
    · have := h2.2
      simp at this
      simpa [Agent.chatStreamTraced, hs, hlt] using this

/-- Witness for C2 at a concrete agent (`max_iterations = 2`) whose
transport always issues a finished call. -/
theorem iteration_limit_c2_witness :
    ((agentC2.chatTraced []).1 = .error (.config "Max iterations reached in agent loop") ∧
     (agentC2.chatTraced []).2.1.length = agentC2.maxIterations) ∧
    ((agentC2.chatStreamTraced []).2.1 =
        some (.config "Max iterations reached in agent loop") ∧
     (agentC2.chatStreamTraced []).2.2.1.length = agentC2.maxIterations) :=
  iteration_limit_c2 agentC2 srvOk [] [] rfl rfl (by decide)
    (fun _ => ⟨respCallFin, rfl, rfl⟩)
    (fun _ => ⟨{ chunks := [respCallFin], fail := none }, rfl, rfl, rfl⟩)

/-! ### C3: tool failures become conversation content -/

theorem partsRespMsgs_of_no_call (srv : MCPServerModel) :
    ∀ (parts : List Part), parts.any Part.isCall = false →
      partsRespMsgs srv parts = [] ∧ parts.filterMap Part.callOf = [] := by
  intro parts
  induction parts with
  | nil => intro _; exact ⟨rfl, rfl⟩
  | cons p rest ih =>
    intro h
    rw [List.any_cons, Bool.or_eq_false_iff] at h
    obtain ⟨h1, h2⟩ := h
    obtain ⟨ih1, ih2⟩ := ih h2
    cases p with
    | functionCall id n a g f => simp [Part.isCall] at h1
    | text c f => exact ⟨by simpa [partsRespMsgs, List.filterMap_cons] using ih1,
        by simpa [Part.callOf, List.filterMap_cons] using ih2⟩
    | reasoning c s g f => exact ⟨by simpa [partsRespMsgs, List.filterMap_cons] using ih1,
        by simpa [Part.callOf, List.filterMap_cons] using ih2⟩
    | functionResponse i n r ps f =>
      exact ⟨by simpa [partsRespMsgs, List.filterMap_cons] using ih1,
        by simpa [Part.callOf, List.filterMap_cons] using ih2⟩
    | media mt d m u f => exact ⟨by simpa [partsRespMsgs, List.filterMap_cons] using ih1,
        by simpa [Part.callOf, List.filterMap_cons] using ih2⟩

theorem dataRespMsgs_of_no_call (srv : MCPServerModel) :
    ∀ (data : List Message), dataHasCall data = false →
      dataRespMsgs srv data = data ∧ dataCalls data = [] := by
  intro data
  induction data with
  | nil => intro _; exact ⟨rfl, rfl⟩
  | cons m rest ih =>
    intro h
    rw [dataHasCall, List.any_cons, Bool.or_eq_false_iff] at h
    obtain ⟨h1, h2⟩ := h
    obtain ⟨hp1, hp2⟩ := partsRespMsgs_of_no_call srv m.parts h1
    obtain ⟨ih1, ih2⟩ := ih h2
    constructor
    · simp [dataRespMsgs, hp1, ih1]
    · simp [dataCalls, hp2, ih2]

/-- C3: in a round of `Agent::chat` whose response carries one
`FunctionCall` and whose `call_tool` fails, the loop does not abort — it
appends a `User` message holding a finished `FunctionResponse` with the
call's id and name and response `{"error": "Error: <e>"}`, continues, and
when the next round's response carries no `FunctionCall`, returns `Ok` with
the accumulated output. -/
theorem tool_failure_isolation_c3 (a : Agent) (srv : MCPServerModel)
    (tl : List (Served ToolDef)) (messages : List Message) (n : Nat)
    (id : Option String) (name : String) (args : Json) (sig : Option String) (fin : Bool)
    (e : MCPError) (r1 r2 : Response)
    (hs : a.server = some srv) (hlt : srv.listTools = .ok tl)
    (hmi : a.maxIterations = n + 2)
    (hcall : srv.callTool name args = .error e)
    (hr1 : a.client.request messages (tl.map (fun s => s.value)) = .ok r1)
    (hdata : r1.data = [Message.assistant [.functionCall id name args sig fin]])
    (hr2 : a.client.request (messages ++
        [Message.assistant [.functionCall id name args sig fin],
         Message.user [.functionResponse id name
           (Json.obj [("error", Json.str ("Error: " ++ e))]) [] true]])
        (tl.map (fun s => s.value)) = .ok r2)
    (hnc : dataHasCall r2.data = false) :
    a.chatTraced messages =
      (.ok { data := [Message.assistant [.functionCall id name args sig fin],
                      Message.user [.functionResponse id name
                        (Json.obj [("error", Json.str ("Error: " ++ e))]) [] true]] ++ r2.data,
             usage := (Usage.empty.add r1.usage).add r2.usage,
             finish := r2.finish },
       [messages,
        messages ++ [Message.assistant [.functionCall id name args sig fin],
          Message.user [.functionResponse id name
            (Json.obj [("error", Json.str ("Error: " ++ e))]) [] true]]],
       [(name, args)]) := by
  obtain ⟨hrm, hdc⟩ := dataRespMsgs_of_no_call srv r2.data hnc
  have hresp : dataRespMsgs srv r1.data =
      [Message.assistant [.functionCall id name args sig fin],
       Message.user [.functionResponse id name
         (Json.obj [("error", Json.str ("Error: " ++ e))]) [] true]] := by
    rw [hdata]
    simp [dataRespMsgs, partsRespMsgs, Message.parts, runToolCall, hcall, List.filterMap_cons]
  have hcalls : dataCalls r1.data = [(name, args)] := by
    rw [hdata]
    simp [dataCalls, Part.callOf, Message.parts, List.filterMap_cons]
  have hhc : dataHasCall r1.data = true := by
    rw [hdata]
    simp [dataHasCall, Part.isCall, Message.parts]
  simp only [Agent.chatTraced, hs, hlt, hmi]
  simp only [chatLoop, hr1, hs, chatProcessData_ok srv, hhc, Bool.or_true, if_pos]
  rw [hresp, hcalls]
  simp only [List.nil_append, List.append_nil, chatLoop]
  rw [hr2]
  simp only [chatProcessData_ok srv, hrm, hdc, hnc, Bool.or_false, Bool.false_or]
  simp [Response.emptyAgent]

/-- Witness for C3 at a concrete two-round agent whose tool always fails
with `boom`. -/
theorem tool_failure_isolation_c3_witness :
    agentC3.chatTraced [Message.user [.text "q" true]] =
      (.ok { data := [Message.assistant [.functionCall (some "call_1") "f" .null none true],
                      Message.user [.functionResponse (some "call_1") "f"
                        (Json.obj [("error", Json.str ("Error: " ++ "boom"))]) [] true]] ++
               respPlain.data,
             usage := (Usage.empty.add respCallFin.usage).add respPlain.usage,
             finish := respPlain.finish },
       [[Message.user [.text "q" true]],
        [Message.user [.text "q" true]] ++
          [Message.assistant [.functionCall (some "call_1") "f" .null none true],
           Message.user [.functionResponse (some "call_1") "f"
             (Json.obj [("error", Json.str ("Error: " ++ "boom"))]) [] true]]],
       [("f", Json.null)]) :=
  tool_failure_isolation_c3 agentC3 srvFailBoom [] [Message.user [.text "q" true]] 0
    (some "call_1") "f" .null none true "boom" respCallFin respPlain
    rfl rfl rfl rfl rfl rfl rfl rfl

end Unia
